import Mathlib

/-!
# Verification of the gitmermaid repository-context extraction pipeline

A shallow embedding, in Lean 4, of the repository's extraction pipeline
(`src/extractRepoContextRobust.js`), its file-based extraction cache
(`diagramCache`, shipped inside `src/vite.config.ts`), and the GitHub URL
normalizer (`getGitCloneUrl`).  JavaScript strings are modelled as `List Char`,
the filesystem handed to the extractor as an inductive tree, and every
JavaScript exception site as an `Option`: `none` means the corresponding
filesystem call threw.  All definitions are executable so that concrete runs
can be checked by `decide`.
-/

set_option maxRecDepth 100000

namespace GitMermaid

/-- JavaScript strings, modelled as lists of characters. -/
abbrev Str := List Char

/-- Character list of a Lean string literal. -/
def str (s : String) : Str := s.data

/-- Association-list lookup, modelling a JavaScript object property read
(`index[url]`): the first binding for the key, if any. -/
def assocFind (k : Str) : List (Str × α) → Option α
  | [] => none
  | (k2, v) :: rest => if k2 = k then some v else assocFind k rest

/-- Association-list update, modelling a JavaScript object property write
(`index[url] = entry`): unconditionally replaces the binding for the key,
appending it if absent. -/
def assocSet (k : Str) (v : α) : List (Str × α) → List (Str × α)
  | [] => [(k, v)]
  | (k2, w) :: rest => if k2 = k then (k2, v) :: rest else (k2, w) :: assocSet k v rest

/-! ## Cache store (`diagramCache`: `getCachedExtraction` / `setCachedExtraction`)

The store has two parts, mirroring the on-disk layout: `index.json` (a map from
normalized URL to metadata) and the `extractions/` directory (a map from
filename to digest text).  Timestamps are integers (`Date.now()` milliseconds).
The md5-based filename generator (`generateFilename`, which calls the `crypto`
platform builtin) is abstracted as a function parameter `genFilename`. -/

/-- One entry of the cache index (`index[normalizedUrl]` in `diagramCache`). -/
structure CacheIndexEntry where
  filename : Str
  timestamp : Int
  size : Nat
  fileCount : Nat
  totalSize : Nat
  duration : Int
deriving DecidableEq, Repr

/-- The persistent cache state: the index file plus the extraction files. -/
structure CacheStore where
  index : List (Str × CacheIndexEntry)
  files : List (Str × Str)
deriving DecidableEq, Repr

/-- What `getCachedExtraction` returns on a hit (the `data`/`duration`
structure rebuilt from the entry and the extraction file). -/
structure CachedResult where
  content : Str
  fileCount : Nat
  totalSize : Nat
  duration : Int
deriving DecidableEq, Repr

/-- `CACHE_EXPIRY_MS = 24 * 60 * 60 * 1000` from `diagramCache`. -/
def CACHE_EXPIRY_MS : Int := 24 * 60 * 60 * 1000

/-- Embedding of `getCachedExtraction(normalizedUrl)`.  `now` is `Date.now()`.
Misses when the index has no entry, when the entry is older than the expiry
window (the read performs no store mutation: the source explicitly leaves
deletion to later writes), or when the extraction file is missing. -/
def getCachedExtraction (store : CacheStore) (now : Int) (normalizedUrl : Str) :
    Option CachedResult :=
  match assocFind normalizedUrl store.index with
  | none => none
  | some entry =>
    if CACHE_EXPIRY_MS < now - entry.timestamp then none
    else
      match assocFind entry.filename store.files with
      | none => none
      | some content =>
        some { content := content, fileCount := entry.fileCount,
               totalSize := entry.totalSize, duration := entry.duration }

/-- The slice of an extraction result that `setCachedExtraction` persists. -/
structure ExtractionToCache where
  content : Str
  fileCount : Nat
  totalSize : Nat
  duration : Int
deriving DecidableEq, Repr

/-- Embedding of `setCachedExtraction(normalizedUrl, extractionResult)`:
writes the digest under the generated filename and unconditionally overwrites
the index entry for the key. -/
def setCachedExtraction (genFilename : Str → Str) (store : CacheStore) (now : Int)
    (normalizedUrl : Str) (res : ExtractionToCache) : CacheStore :=
  let filename := genFilename normalizedUrl
  { index := assocSet normalizedUrl
      { filename := filename, timestamp := now, size := res.content.length,
        fileCount := res.fileCount, totalSize := res.totalSize,
        duration := res.duration } store.index,
    files := assocSet filename res.content store.files }

/-! ## String utilities shared by the embedded functions -/

/-- JavaScript whitespace for `String.prototype.trim` (the characters relevant
to this code base: space, tab, newline, carriage return, form feed, vertical
tab). -/
def isWs (c : Char) : Bool :=
  c = ' ' || c = '\t' || c = '\n' || c = '\r' || c = '\x0c' || c = '\x0b'

/-- `String.prototype.trim`. -/
def jsTrim (s : Str) : Str :=
  ((s.dropWhile isWs).reverse.dropWhile isWs).reverse

/-- ASCII lowercase conversion of one character, modelling
`String.prototype.toLowerCase` on the ASCII diagnostics this program
inspects. -/
def lowerChar (c : Char) : Char :=
  if 'A' ≤ c ∧ c ≤ 'Z' then Char.ofNat (c.toNat + 32) else c

/-- `String.prototype.toLowerCase` (ASCII fragment). -/
def jsToLower (s : Str) : Str := s.map lowerChar

/-- `String.prototype.includes(needle)`: substring containment. -/
def jsIncludes (hay needle : Str) : Bool :=
  match hay with
  | [] => needle.isEmpty
  | _ :: t => needle.isPrefixOf hay || jsIncludes t needle

/-- `String.prototype.startsWith(p)`. -/
def jsStartsWith (hay p : Str) : Bool := p.isPrefixOf hay

/-- `String.prototype.endsWith(p)`. -/
def jsEndsWith (hay p : Str) : Bool := p.reverse.isPrefixOf hay.reverse

/-- Decimal digit character. -/
def digitChar (n : Nat) : Char := Char.ofNat (48 + n)

/-- Fuelled decimal rendering helper. -/
def natToStrAux : Nat → Nat → Str
  | 0, _ => []
  | fuel + 1, n => if n < 10 then [digitChar n] else natToStrAux fuel (n / 10) ++ [digitChar (n % 10)]

/-- Decimal rendering of a natural number (JavaScript number-to-string
conversion for the non-negative integers this program prints). -/
def natToStr (n : Nat) : Str := natToStrAux (n + 1) n

/-! ## Clone-error classifier (`classifyCloneError`) -/

/-- The `ErrorType` tags from `extractRepoContextRobust.js`. -/
inductive ErrorType where
  | REPOSITORY_NOT_FOUND
  | PRIVATE_REPOSITORY
  | NETWORK_ERROR
  | INVALID_URL
  | PERMISSION_DENIED
  | TIMEOUT
  | UNKNOWN
deriving DecidableEq, Repr

/-- A classification produced by `classifyCloneError`: tag, fixed human
message, fixed remediation suggestion. -/
structure ClassifiedError where
  type : ErrorType
  message : Str
  suggestion : Str
deriving DecidableEq, Repr

/-- The timeout test of `classifyCloneError`: the source's
`originalError && originalError.includes('ETIMEDOUT')`, where `none` models
`undefined` and the empty string is falsy. -/
def timeoutSignal (originalError : Option Str) : Bool :=
  match originalError with
  | some s => !s.isEmpty && jsIncludes s (str "ETIMEDOUT")
  | none => false

/-- Embedding of `classifyCloneError(stderr, originalError)`.  `originalError`
is the clone exception's message.  The timeout test runs first, on the
original error; the stderr checks then run on the lowercased text, in source
order. -/
def classifyCloneError (stderr : Str) (originalError : Option Str) : ClassifiedError :=
  if timeoutSignal originalError then
    { type := .TIMEOUT,
      message := str "Sorry, repository is too large. Try a smaller repo.",
      suggestion := str "Try a smaller repository. Large repositories like frameworks or operating systems may exceed the time limit." }
  else
    let errorText := jsToLower stderr
    if jsIncludes errorText (str "repository not found") then
      { type := .REPOSITORY_NOT_FOUND,
        message := str "Repository not found. It may be private, non-existent, or you may lack access.",
        suggestion := str "Verify the repository URL is correct and public, or provide authentication for private repos." }
    else if jsIncludes errorText (str "could not resolve host") then
      { type := .NETWORK_ERROR,
        message := str "Network error: Could not resolve hostname.",
        suggestion := str "Check your internet connection and verify the Git hosting service URL." }
    else if jsIncludes errorText (str "permission denied") ||
            jsIncludes errorText (str "authentication failed") then
      { type := .PERMISSION_DENIED,
        message := str "Authentication required or permission denied.",
        suggestion := str "This repository requires authentication. Provide a GitHub token or SSH key." }
    else if jsIncludes errorText (str "fatal:") &&
            jsIncludes errorText (str "not a git repository") then
      { type := .INVALID_URL,
        message := str "Invalid Git repository URL.",
        suggestion := str "Ensure the URL points to a valid Git repository." }
    else
      { type := .UNKNOWN,
        message := str "Unknown error occurred during cloning.",
        suggestion := str "Check the repository URL and try again." }

/-! ## URL validation (`validateRepoUrl`) and normalization (`getGitCloneUrl`)

The JavaScript regular expressions are embedded as executable matchers over
`List Char`.  Character classes: `\w` is `[A-Za-z0-9_]`, `[\w\-\.]` adds dash
and dot, `[^\/\s]` is any non-slash non-whitespace, `[^\/\s\?#]` further
excludes `?` and `#`, and `.` (dot) excludes line terminators. -/

/-- `\w` of JavaScript regular expressions. -/
def wordChar (c : Char) : Bool :=
  ('a' ≤ c && c ≤ 'z') || ('A' ≤ c && c ≤ 'Z') || ('0' ≤ c && c ≤ '9') || c = '_'

/-- The `[\w\-\.]` class used for org/repo segments and hostnames. -/
def urlSegChar (c : Char) : Bool := wordChar c || c = '-' || c = '.'

/-- The `[^\/\s]` class (org part of the clone-URL patterns). -/
def orgChar (c : Char) : Bool := !(c = '/') && !isWs c

/-- The `[^\/\s\?#]` class (repo part of the clone-URL patterns). -/
def repoChar (c : Char) : Bool := !(c = '/') && !isWs c && !(c = '?') && !(c = '#')

/-- JavaScript regex line terminators, which `.` does not match. -/
def lineTerm (c : Char) : Bool := c = '\n' || c = '\r' || c = '\u2028' || c = '\u2029'

/-- `s.replace(/\.git$/, '')`. -/
def stripGitSuffix (s : Str) : Str :=
  if jsEndsWith s (str ".git") then s.take (s.length - 4) else s

/-- Matches `([^\/\s]+)\/` at the front: the maximal run of `[^\/\s]` followed
by a slash (the class excludes the slash, so the greedy run is forced).
Returns the org and the remainder after the slash. -/
def orgSplit (t : Str) : Option (Str × Str) :=
  let org := t.takeWhile orgChar
  match t.drop org.length with
  | '/' :: rest => if org.isEmpty then none else some (org, rest)
  | _ => none

/-- The `(?:\.git)?(?:\/.*)?$` tail of the https/bare github clone-URL
patterns: empty, a slash plus any line-terminator-free text, `.git`, or
`.git/` plus such text. -/
def cloneTailA (t : Str) : Bool :=
  t.isEmpty ||
  (match t with | '/' :: u => u.all (fun c => !lineTerm c) | _ => false) ||
  (jsStartsWith t (str ".git") &&
    (let r := t.drop 4
     r.isEmpty || (match r with | '/' :: u => u.all (fun c => !lineTerm c) | _ => false)))

/-- The `(?:\.git)?$` tail of the ssh and shorthand clone-URL patterns. -/
def cloneTailB (t : Str) : Bool := t.isEmpty || t = str ".git"

/-- Non-greedy `([^\/\s\?#]+?)` followed by `tail`: consumes `repoChar`s one
at a time and stops at the first point where the tail matches, exactly like
the backtracking regex engine. -/
def repoScanAux (tail : Str → Bool) (acc : Str) : Str → Option Str
  | [] => none
  | c :: cs =>
    if repoChar c then
      if tail cs then some (acc ++ [c]) else repoScanAux tail (acc ++ [c]) cs
    else none

/-- Minimal match of `([^\/\s\?#]+?)` followed by `tail`. -/
def repoScan (tail : Str → Bool) (t : Str) : Option Str := repoScanAux tail [] t

/-- First `getGitCloneUrl` pattern:
`^https?:\/\/github\.com\/([^\/\s]+)\/([^\/\s\?#]+?)(?:\.git)?(?:\/.*)?$`. -/
def gitUrlPattern1 (t : Str) : Option (Str × Str) :=
  let afterScheme :=
    if jsStartsWith t (str "https://") then some (t.drop 8)
    else if jsStartsWith t (str "http://") then some (t.drop 7)
    else none
  match afterScheme with
  | none => none
  | some r =>
    if jsStartsWith r (str "github.com/") then
      match orgSplit (r.drop 11) with
      | some (org, rest) =>
        match repoScan cloneTailA rest with
        | some repo => some (org, repo)
        | none => none
      | none => none
    else none

/-- Second `getGitCloneUrl` pattern:
`^git@github\.com:([^\/\s]+)\/([^\/\s\?#]+?)(?:\.git)?$`. -/
def gitUrlPattern2 (t : Str) : Option (Str × Str) :=
  if jsStartsWith t (str "git@github.com:") then
    match orgSplit (t.drop 15) with
    | some (org, rest) =>
      match repoScan cloneTailB rest with
      | some repo => some (org, repo)
      | none => none
    | none => none
  else none

/-- Third `getGitCloneUrl` pattern:
`^github\.com\/([^\/\s]+)\/([^\/\s\?#]+?)(?:\.git)?(?:\/.*)?$`. -/
def gitUrlPattern3 (t : Str) : Option (Str × Str) :=
  if jsStartsWith t (str "github.com/") then
    match orgSplit (t.drop 11) with
    | some (org, rest) =>
      match repoScan cloneTailA rest with
      | some repo => some (org, repo)
      | none => none
    | none => none
  else none

/-- Fourth `getGitCloneUrl` pattern (shorthand):
`^([^\/\s]+)\/([^\/\s\?#]+?)(?:\.git)?$`. -/
def gitUrlPattern4 (t : Str) : Option (Str × Str) :=
  match orgSplit t with
  | some (org, rest) =>
    match repoScan cloneTailB rest with
    | some repo => some (org, repo)
    | none => none
  | none => none

/-- One iteration of the `getGitCloneUrl` pattern loop: if the pattern
matches, strip a `.git` suffix from the repo, and return the rebuilt clone
URL only when the org/repo validation `/^[\w\-\.]+$/` passes on both parts
(otherwise the loop falls through to the next pattern). -/
def tryClonePattern (m : Str → Option (Str × Str)) (t : Str) : Option Str :=
  match m t with
  | none => none
  | some (org, rawRepo) =>
    let repo := stripGitSuffix rawRepo
    if !org.isEmpty && !repo.isEmpty && org.all urlSegChar && repo.all urlSegChar then
      some (str "https://github.com/" ++ org ++ str "/" ++ repo ++ str ".git")
    else none

/-- Embedding of `getGitCloneUrl(url)` from `src/unnamed/part_003`
(`utils/gitUrlParser.js`): `none` input models a non-string or `undefined`
argument, and the empty string is falsy.  The four patterns run in source
order; a pattern whose match fails the org/repo validation falls through to
the next pattern. -/
def getGitCloneUrl (url : Option Str) : Option Str :=
  match url with
  | none => none
  | some s =>
    if s.isEmpty then none
    else
      let t := jsTrim s
      match tryClonePattern gitUrlPattern1 t with
      | some r => some r
      | none =>
        match tryClonePattern gitUrlPattern2 t with
        | some r => some r
        | none =>
          match tryClonePattern gitUrlPattern3 t with
          | some r => some r
          | none => tryClonePattern gitUrlPattern4 t

/-- Scheme characters of an absolute URL (`ALPHA *( ALPHA / DIGIT / + / - / . )`). -/
def schemeChar (c : Char) : Bool := c.isAlpha || c.isDigit || c = '+' || c = '-' || c = '.'

/-- Models success of the WHATWG `new URL(s)` platform constructor used by
`validateRepoUrl`: an ASCII-alpha-initial scheme run followed by a colon.
(The real constructor performs further validation irrelevant here: every
`https://host/...` string this program builds parses, while scheme-less
strings such as `"not-a-valid-url"` throw.) -/
def canParseUrl (s : Str) : Bool :=
  match s with
  | [] => false
  | c :: _ =>
    c.isAlpha &&
      (match s.drop (s.takeWhile schemeChar).length with
       | ':' :: _ => true
       | _ => false)

/-- Two `[\w\-\.]+` segments separated by one slash: the part of the github
and bitbucket hosting patterns after the literal prefix (`(?:\.git)?` is
subsumed because `.git` is made of `[\w\-\.]` characters). -/
def twoSegGit (rest : Str) : Bool :=
  let a := rest.takeWhile urlSegChar
  match rest.drop a.length with
  | '/' :: b => !a.isEmpty && !b.isEmpty && b.all urlSegChar
  | _ => false

/-- `^https:\/\/github\.com\/[\w\-\.]+\/[\w\-\.]+(?:\.git)?$`. -/
def githubHostPat (t : Str) : Bool :=
  jsStartsWith t (str "https://github.com/") && twoSegGit (t.drop 19)

/-- `^https:\/\/gitlab\.com\/[\w\-\.\/]+(?:\.git)?$`. -/
def gitlabHostPat (t : Str) : Bool :=
  jsStartsWith t (str "https://gitlab.com/") &&
    (let rest := t.drop 19
     !rest.isEmpty && rest.all (fun c => urlSegChar c || c = '/'))

/-- `^https:\/\/bitbucket\.org\/[\w\-\.]+\/[\w\-\.]+(?:\.git)?$`. -/
def bitbucketHostPat (t : Str) : Bool :=
  jsStartsWith t (str "https://bitbucket.org/") && twoSegGit (t.drop 22)

/-- `^https:\/\/[\w\-\.]+\/.*\.git$`. -/
def genericGitPat (t : Str) : Bool :=
  jsStartsWith t (str "https://") &&
    (let rest := t.drop 8
     let host := rest.takeWhile urlSegChar
     !host.isEmpty &&
       (match rest.drop host.length with
        | '/' :: tail2 => jsEndsWith tail2 (str ".git") && tail2.all (fun c => !lineTerm c)
        | _ => false))

/-- The result of `validateRepoUrl`. -/
structure ValidationResult where
  valid : Bool
  error : Option Str
deriving DecidableEq, Repr

/-- Embedding of `validateRepoUrl(url)`: requires a non-empty string, a
parseable URL, and one of the four hosting-URL shapes. -/
def validateRepoUrl (url : Option Str) : ValidationResult :=
  match url with
  | none => { valid := false, error := some (str "URL is required and must be a string") }
  | some s =>
    if s.isEmpty then
      { valid := false, error := some (str "URL is required and must be a string") }
    else
      let trimmedUrl := jsTrim s
      if trimmedUrl.isEmpty then
        { valid := false, error := some (str "URL cannot be empty") }
      else if !canParseUrl trimmedUrl then
        { valid := false, error := some (str "Invalid URL format") }
      else if githubHostPat trimmedUrl || gitlabHostPat trimmedUrl ||
              bitbucketHostPat trimmedUrl || genericGitPat trimmedUrl then
        { valid := true, error := none }
      else
        { valid := false,
          error := some (str "URL does not appear to be a valid Git repository URL. Expected format: https://github.com/user/repo.git") }

/-! ## Filesystem model and the directory-tree renderer (`generateDirectoryTree`)

A workspace is a list of entries; a file carries the outcome of `statSync`
(`none` = the call threw) and of `readFileSync(..., 'utf-8')` (`none` = the
call threw).  Tree lines are kept structured (`TreeLine`) and rendered to text
separately, so that marker lines are distinguishable from same-looking file
names.  Recursion into subdirectories is fuelled; any fuel at least the tree
depth gives the full traversal. -/

/-- A filesystem entry of the cloned workspace. -/
inductive FsEntry where
  | file (name : Str) (stat : Option Nat) (text : Option Str)
  | dir (name : Str) (children : List FsEntry)

/-- The entry's name (`dirent.name`). -/
def FsEntry.name : FsEntry → Str
  | .file n _ _ => n
  | .dir n _ => n

/-- `dirent.isDirectory()`. -/
def FsEntry.isDir : FsEntry → Bool
  | .file _ _ _ => false
  | .dir _ _ => true

/-- Three-way comparison of naturals. -/
def natCmpOrd (m n : Nat) : Ordering :=
  if m < n then .lt else if n < m then .gt else .eq

/-- Lexicographic comparison of character lists by code point. -/
def listCmp : Str → Str → Ordering
  | [], [] => .eq
  | [], _ :: _ => .lt
  | _ :: _, [] => .gt
  | c :: cs, d :: ds =>
    match natCmpOrd c.toNat d.toNat with
    | .eq => listCmp cs ds
    | o => o

/-- Models `String.prototype.localeCompare` on the ASCII names this program
sorts: case-insensitive primary comparison (lowercased code points), with the
raw code points as deterministic tiebreak. -/
def localeCmp (a b : Str) : Ordering :=
  match listCmp (jsToLower a) (jsToLower b) with
  | .eq => listCmp a b
  | o => o

/-- The comparator of `generateDirectoryTree`'s entry sort, as a `Bool` "may
come first" relation: directories before files, then `localeCompare` on
names. -/
def entryLe (a b : FsEntry) : Bool :=
  if a.isDir && !b.isDir then true
  else if !a.isDir && b.isDir then false
  else
    match localeCmp a.name b.name with
    | .gt => false
    | _ => true

/-- Stable insertion of one element into a sorted list. -/
def insertSorted (le : α → α → Bool) (a : α) : List α → List α
  | [] => [a]
  | b :: l => if le a b then a :: b :: l else b :: insertSorted le a l

/-- Stable insertion sort, modelling `Array.prototype.sort` (which is
stable); for the consistent comparators used here it produces the same list
as any stable sort. -/
def insertionSort (le : α → α → Bool) : List α → List α
  | [] => []
  | a :: l => insertSorted le a (insertionSort le l)

/-- The sort applied to the filtered directory entries. -/
def sortEntries (es : List FsEntry) : List FsEntry := insertionSort entryLe es

/-- `DEFAULT_IGNORED_FOLDERS`: directory names collapsed in the rendered
tree. -/
def DEFAULT_IGNORED_FOLDERS : List Str :=
  [str "node_modules", str ".git", str "dist", str "build", str "coverage"]

/-- A structured line of the rendered tree. -/
inductive TreeLine where
  | rootLine (name : Str)
  | entryLine (pfx : Str) (isLast : Bool) (name : Str) (isDir : Bool)
  | noiseLine (pfx : Str) (isLast : Bool) (name : Str)
  | truncLine (pfx : Str)
deriving DecidableEq, Repr

/-- The connector glyphs chosen from `isLastEntry`. -/
def connectorStr (isLast : Bool) : Str := if isLast then str "└───" else str "├───"

/-- The prefix extension chosen from `isLastEntry`. -/
def extensionStr (isLast : Bool) : Str := if isLast then str "    " else str "│   "

/-- The text the source pushes for each structured line. -/
def renderTreeLine : TreeLine → Str
  | .rootLine n => n ++ str "/"
  | .entryLine pfx isLast n isDir =>
    pfx ++ connectorStr isLast ++ n ++ (if isDir then str "/" else [])
  | .noiseLine pfx isLast n => pfx ++ connectorStr isLast ++ n ++ str "/..."
  | .truncLine pfx => pfx ++ str "└─── ... (truncated)"

/-- The mutable state of `generateDirectoryTree`: the `lines` array and the
`itemCount` counter. -/
structure TreeState where
  lines : List TreeLine
  itemCount : Nat
deriving DecidableEq, Repr

/-- The `forEach` body over the filtered, sorted entries of one directory.
`recurse` is the traversal of a subdirectory (the fuelled recursive call).
An entry reached with the item budget exhausted is skipped (the callback
`return` continues the loop); a `DEFAULT_IGNORED_FOLDERS` directory emits one
collapsed line and is not recursed into. -/
def processEntries (maxItems : Nat)
    (recurse : List FsEntry → List Str → Str → TreeState → TreeState)
    (relPath : List Str) (pfx : Str) : List FsEntry → TreeState → TreeState
  | [], st => st
  | e :: rest, st =>
    if maxItems ≤ st.itemCount then processEntries maxItems recurse relPath pfx rest st
    else
      let isLast := rest.isEmpty
      match e with
      | .file n _ _ =>
        processEntries maxItems recurse relPath pfx rest
          { lines := st.lines ++ [.entryLine pfx isLast n false], itemCount := st.itemCount + 1 }
      | .dir n cs =>
        if DEFAULT_IGNORED_FOLDERS.contains n then
          processEntries maxItems recurse relPath pfx rest
            { lines := st.lines ++ [.noiseLine pfx isLast n], itemCount := st.itemCount + 1 }
        else
          let st1 : TreeState :=
            { lines := st.lines ++ [.entryLine pfx isLast n true], itemCount := st.itemCount + 1 }
          processEntries maxItems recurse relPath pfx rest
            (recurse cs (relPath ++ [n]) (pfx ++ extensionStr isLast) st1)

/-- The `traverse` function of `generateDirectoryTree`: on entry with the
budget already exhausted it pushes the truncation marker exactly when
`itemCount` equals `maxItems` (bumping the counter so no later call pushes a
second one) and stops; otherwise it filters the directory listing through
`ignoreFn`, sorts it, and walks it. -/
def traverseDir (ignoreFn : List Str → Bool) (maxItems : Nat) :
    Nat → List FsEntry → List Str → Str → TreeState → TreeState
  | 0, _, _, _, st => st
  | fuel + 1, cs, relPath, pfx, st =>
    if maxItems ≤ st.itemCount then
      if st.itemCount = maxItems then
        { lines := st.lines ++ [.truncLine pfx], itemCount := st.itemCount + 1 }
      else st
    else
      processEntries maxItems (traverseDir ignoreFn maxItems fuel) relPath pfx
        (sortEntries (cs.filter (fun e => !ignoreFn (relPath ++ [e.name])))) st

/-- Embedding of `generateDirectoryTree(rootDir, ignoreFn, maxItems)` as a
structured line list: the root line, then the fuelled traversal from the
workspace root. -/
def generateDirectoryTree (fuel : Nat) (ignoreFn : List Str → Bool) (maxItems : Nat)
    (rootName : Str) (children : List FsEntry) : List TreeLine :=
  (traverseDir ignoreFn maxItems fuel children [] []
    { lines := [.rootLine rootName], itemCount := 0 }).lines

/-- `array.flatten(sep)`. -/
def joinWith (sep : Str) : List Str → Str
  | [] => []
  | [x] => x
  | x :: y :: rest => x ++ sep ++ joinWith sep (y :: rest)

/-- The text `generateDirectoryTree` returns (`lines.flatten('\n')`). -/
def treeText (fuel : Nat) (ignoreFn : List Str → Bool) (maxItems : Nat)
    (rootName : Str) (children : List FsEntry) : Str :=
  joinWith (str "\n")
    ((generateDirectoryTree fuel ignoreFn maxItems rootName children).map renderTreeLine)

/-! ## Exclusion engine and candidate enumeration (`extractRepoContext` setup)

Paths are segment lists.  The `glob` ignore patterns used by
`DEFAULT_EXCLUDES` come in exactly three shapes, embedded as `GlobPat`:
`**/name/**` (a directory name anywhere strictly above the file),
`**/*.ext` (an extension suffix of the basename), and `**/name` (an exact
basename).  The `ignore` npm package is modelled on the fragment this program
relies on: bare segment-name patterns (no slashes, no wildcards), which match
a path whenever any of its segments equals the pattern. -/

/-- One glob ignore pattern of `DEFAULT_EXCLUDES`. -/
inductive GlobPat where
  | dirAny (name : Str)
  | extAny (suffix : Str)
  | fileAny (name : Str)
deriving DecidableEq, Repr

/-- The `DEFAULT_EXCLUDES` list, pattern by pattern in source order. -/
def DEFAULT_EXCLUDES : List GlobPat :=
  [.dirAny (str "node_modules"), .dirAny (str ".git"), .dirAny (str ".vscode"),
   .dirAny (str ".idea"), .dirAny (str "dist"), .dirAny (str "build"),
   .dirAny (str "coverage"), .dirAny (str "__pycache__"),
   .extAny (str ".pyc"), .extAny (str ".pyo"), .extAny (str ".bin"),
   .extAny (str ".exe"), .extAny (str ".dll"), .extAny (str ".so"),
   .extAny (str ".dylib"), .extAny (str ".class"), .extAny (str ".jar"),
   .extAny (str ".war"), .extAny (str ".zip"), .extAny (str ".tar"),
   .extAny (str ".gz"), .extAny (str ".bz2"), .extAny (str ".rar"),
   .extAny (str ".7z"), .extAny (str ".doc"), .extAny (str ".docx"),
   .extAny (str ".xls"), .extAny (str ".xlsx"), .extAny (str ".ppt"),
   .extAny (str ".pptx"), .extAny (str ".odt"), .extAny (str ".ods"),
   .extAny (str ".odp"), .fileAny (str ".DS_Store"), .fileAny (str ".env"),
   .extAny (str ".json"), .extAny (str ".csv"), .extAny (str ".png"),
   .extAny (str ".jpg"), .extAny (str ".jpeg"), .extAny (str ".gif"),
   .extAny (str ".svg"), .extAny (str ".ico"), .extAny (str ".pdf"),
   .extAny (str ".mp3"), .extAny (str ".mp4"), .extAny (str ".avi"),
   .extAny (str ".mov"), .extAny (str ".wmv"), .extAny (str ".flv"),
   .extAny (str ".woff"), .extAny (str ".woff2"), .extAny (str ".ttf"),
   .extAny (str ".eot")]

/-- Whether a glob ignore pattern matches a (file) path. -/
def matchGlob (p : List Str) : GlobPat → Bool
  | .dirAny n => p.dropLast.contains n
  | .extAny suf =>
    match p.getLast? with
    | some b => jsEndsWith b suf
    | none => false
  | .fileAny n =>
    match p.getLast? with
    | some b => b = n
    | none => false

/-- `content.split('\n')`. -/
def splitOnChar (sep : Char) : Str → List Str
  | [] => [[]]
  | c :: cs =>
    let rest := splitOnChar sep cs
    if c = sep then [] :: rest
    else
      match rest with
      | [] => [[c]]
      | h :: t => (c :: h) :: t

/-- `IgnoreParser.loadPatterns` on a file's content: split into lines, trim,
drop blanks and `#` comments. -/
def parseIgnoreFile (content : Str) : List Str :=
  ((splitOnChar '\n' content).map jsTrim).filter
    (fun p => !p.isEmpty && !jsStartsWith p (str "#"))

/-- Patterns of an ignore file that may be absent (`loadPatterns` swallows
the read error and loads nothing). -/
def loadIg : Option Str → List Str
  | none => []
  | some c => parseIgnoreFile c

/-- Bare-name gitignore matching of the `ignore` package fragment in use: a
pattern without slash or wildcard matches any path having it as a segment. -/
def igMatches (pats : List Str) (p : List Str) : Bool :=
  pats.any (fun n => p.contains n)

/-- The option object of `extractRepoContext`, with its source defaults. -/
structure ExtractOptions where
  respectGitIgnore : Bool := true
  respectGeminiIgnore : Bool := true
  useDefaultExcludes : Bool := true
  maxFiles : Nat := 500
  maxOutputChars : Nat := 50 * 1000
  maxFileSize : Nat := 5 * 1024 * 1024
  maxLinesPerFile : Nat := 1000
  maxLineLength : Nat := 2000
deriving Repr

/-- The ignore files found in the workspace root (`none` = file absent). -/
structure IgnoreFiles where
  gitignore : Option Str := none
  gitInfoExclude : Option Str := none
  geminiignore : Option Str := none
deriving Repr

/-- The patterns held by the `gitIgnore` parser: the two loaded files plus
the always-added `.git` — all three only when `respectGitIgnore` is set. -/
def gitIgnorePatterns (o : ExtractOptions) (igf : IgnoreFiles) : List Str :=
  if o.respectGitIgnore then
    (loadIg igf.gitignore ++ loadIg igf.gitInfoExclude) ++ [str ".git"]
  else []

/-- The patterns held by the `geminiIgnore` parser. -/
def geminiIgnorePatterns (o : ExtractOptions) (igf : IgnoreFiles) : List Str :=
  if o.respectGeminiIgnore then loadIg igf.geminiignore else []

/-- Embedding of the `shouldIgnore(relativePath)` closure. -/
def shouldIgnore (o : ExtractOptions) (igf : IgnoreFiles) (p : List Str) : Bool :=
  (o.respectGitIgnore && igMatches (gitIgnorePatterns o igf) p) ||
  (o.respectGeminiIgnore && igMatches (geminiIgnorePatterns o igf) p)

/-- `effectiveExcludes`: the glob ignore list handed to `glob`. -/
def effectiveExcludes (o : ExtractOptions) : List GlobPat :=
  if o.useDefaultExcludes then DEFAULT_EXCLUDES else []

/-- A candidate file as visited by the content walk: its relative path
(segments) and the outcomes of `statSync` and `readFileSync`. -/
structure Candidate where
  path : List Str
  stat : Option Nat
  text : Option Str
deriving DecidableEq, Repr

/-- All file paths of the workspace (the fuelled `glob('**/*', {nodir,
dot})` enumeration before any exclusion). -/
def fileEntriesAux : Nat → List FsEntry → List Candidate
  | 0, _ => []
  | fuel + 1, es =>
    (es.map (fun e =>
      match e with
      | .file n stt txt => [{ path := [n], stat := stt, text := txt }]
      | .dir n cs =>
        (fileEntriesAux fuel cs).map (fun c => { c with path := n :: c.path }))).flatten

/-- `path` segments joined with `/`, as the glob result strings. -/
def pathToStr (p : List Str) : Str := joinWith (str "/") p

/-- The default `Array.prototype.sort()` comparator on the glob result
strings: code-unit lexicographic order. -/
def pathLe (a b : Candidate) : Bool :=
  match listCmp (pathToStr a.path) (pathToStr b.path) with
  | .gt => false
  | _ => true

/-- The sorted candidate list the content walk visits: glob with the
effective excludes, then the `shouldIgnore` filter, then `sort()`. -/
def candidateFiles (fuel : Nat) (o : ExtractOptions) (igf : IgnoreFiles)
    (fs : List FsEntry) : List Candidate :=
  insertionSort pathLe
    (((fileEntriesAux fuel fs).filter
        (fun c => !(effectiveExcludes o).any (matchGlob c.path))).filter
      (fun c => !shouldIgnore o igf c.path))

/-! ## Content budgeter and digest assembly (`extractRepoContext`) -/

/-- Embedding of `processFileContent(content, maxLines, maxLineLength)`. -/
def processFileContent (content : Str) (maxLines maxLineLength : Nat) : Str :=
  let lines := splitOnChar '\n' content
  let truncatedLines := maxLines < lines.length
  let processedLines := if maxLines < lines.length then lines.take maxLines else lines
  let truncatedChars := processedLines.any (fun l => maxLineLength < l.length)
  let mapped := processedLines.map
    (fun l => if maxLineLength < l.length then l.take maxLineLength ++ str "..." else l)
  let result := joinWith (str "\n") mapped
  let result :=
    if truncatedLines then
      result ++ str "\n\n... (truncated: " ++ natToStr (lines.length - maxLines) ++
        str " more lines)"
    else result
  if truncatedChars then
    result ++
      (if truncatedLines then str " and long lines"
       else str "\n\n... (truncated: some long lines)")
  else result

/-- Skip reason `'max files limit reached'`. -/
def reasonMaxFiles : Str := str "max files limit reached"

/-- Skip reason `'file too large'`. -/
def reasonTooLarge : Str := str "file too large"

/-- Skip reason `'not a text file'`. -/
def reasonNotText : Str := str "not a text file"

/-- Skip reason `'character limit reached'`. -/
def reasonCharLimit : Str := str "character limit reached"

/-- Skip reason `'read error'`. -/
def reasonReadError : Str := str "read error"

/-- The mutable state of the content walk. -/
structure WalkState where
  parts : List Str
  outputChars : Nat
  fileCount : Nat
  skippedCount : Nat
  totalSize : Nat
  processedFiles : List (List Str)
  skippedFiles : List (List Str × Str)
deriving DecidableEq, Repr

/-- Record one skipped file. -/
def addSkip (st : WalkState) (c : Candidate) (reason : Str) : WalkState :=
  { st with skippedFiles := st.skippedFiles ++ [(c.path, reason)],
            skippedCount := st.skippedCount + 1 }

/-- Record one admitted file: append its section, charge the budget, count
it, and accumulate its byte size. -/
def addFile (st : WalkState) (c : Candidate) (size : Nat) (fileSection : Str) : WalkState :=
  { parts := st.parts ++ [fileSection],
    outputChars := st.outputChars + fileSection.length,
    fileCount := st.fileCount + 1,
    skippedCount := st.skippedCount,
    totalSize := st.totalSize + size,
    processedFiles := st.processedFiles ++ [c.path],
    skippedFiles := st.skippedFiles }

/-- The rendered section for one admitted file. -/
def fileSectionFor (o : ExtractOptions) (c : Candidate) (raw : Str) : Str :=
  str "--- " ++ pathToStr c.path ++ str " ---\n\n" ++
    processFileContent raw o.maxLinesPerFile o.maxLineLength ++ str "\n\n"

/-- One iteration of the per-file loop of `extractRepoContext`: the checks in
source order — file-count limit, `statSync` failure (caught by the outer
`catch` as a read error), per-file size limit, `readFileSync` failure
(reported as not-a-text-file), then the character budget, checked before
appending. -/
def budgetStep (o : ExtractOptions) (st : WalkState) (c : Candidate) : WalkState :=
  if o.maxFiles ≤ st.fileCount then addSkip st c reasonMaxFiles
  else
    match c.stat with
    | none => addSkip st c reasonReadError
    | some size =>
      if o.maxFileSize < size then addSkip st c reasonTooLarge
      else
        match c.text with
        | none => addSkip st c reasonNotText
        | some raw =>
          let fileSection := fileSectionFor o c raw
          if o.maxOutputChars < st.outputChars + fileSection.length then
            addSkip st c reasonCharLimit
          else
            addFile st c size fileSection

/-- `MAX_TREE_ITEMS`, the fixed tree budget (not configurable). -/
def MAX_TREE_ITEMS : Nat := 200

/-- `path.basename` on the resolved root (last `/`-separated segment). -/
def basename (s : Str) : Str := ((splitOnChar '/' s).getLast?).getD s

/-- The `excludedPatterns` metadata collected for the digest. -/
def excludedPatternsMeta (o : ExtractOptions) (igf : IgnoreFiles) : List Str :=
  (if o.respectGitIgnore ∧ gitIgnorePatterns o igf ≠ [] then
     (gitIgnorePatterns o igf).map (fun p => str "[gitignore] " ++ p)
   else []) ++
  (if o.respectGeminiIgnore ∧ geminiIgnorePatterns o igf ≠ [] then
     (geminiIgnorePatterns o igf).map (fun p => str "[geminiignore] " ++ p)
   else []) ++
  (if o.useDefaultExcludes then
     [str "[default] node_modules, dist, build, binaries, etc."]
   else [])

/-- The output parts emitted before the file walk: metadata header, rendered
tree, exclusion summary, and the `FILE CONTENTS` banner.  `rootDirStr` is the
resolved root path and `ts` the timestamp text. -/
def initialParts (fuel : Nat) (rootDirStr ts : Str) (fs : List FsEntry)
    (igf : IgnoreFiles) (o : ExtractOptions) : List Str :=
  [str "=== REPOSITORY CONTEXT ===\n",
   str "Root Directory: " ++ rootDirStr ++ str "\n",
   str "Timestamp: " ++ ts ++ str "\n",
   str "\n=== DIRECTORY STRUCTURE ===\n",
   treeText fuel (shouldIgnore o igf) MAX_TREE_ITEMS (basename rootDirStr) fs,
   str "\n",
   str "=== EXCLUDED PATTERNS ===\n"] ++
  (let ex := excludedPatternsMeta o igf
   if ex ≠ [] then ex.map (fun p => str "- " ++ p ++ str "\n") else [str "None\n"]) ++
  [str "\n", str "=== FILE CONTENTS ===\n\n"]

/-- The character count the walk starts from: the joined initial parts'
length (`outputChars = outputParts.flatten('').length`). -/
def initialDigestChars (fuel : Nat) (rootDirStr ts : Str) (fs : List FsEntry)
    (igf : IgnoreFiles) (o : ExtractOptions) : Nat :=
  (initialParts fuel rootDirStr ts fs igf o).flatten.length

/-- Models `(totalSize/1024).toFixed(2)` with exact rational rounding (the
source formats an IEEE double; the claims do not depend on this text). -/
def formatKB (totalSize : Nat) : Str :=
  let centi := (totalSize * 100 + 512) / 1024
  natToStr (centi / 100) ++ str "." ++
    (let f := centi % 100
     (if f < 10 then str "0" else []) ++ natToStr f)

/-- The summary footer parts. -/
def summaryParts (st : WalkState) : List Str :=
  [str "=== SUMMARY ===\n",
   str "Files included: " ++ natToStr st.fileCount ++ str "\n",
   str "Files skipped: " ++ natToStr st.skippedCount ++ str "\n",
   str "Total size: " ++ formatKB st.totalSize ++ str " KB\n"] ++
  (if st.skippedFiles.length ≠ 0 ∧ st.skippedFiles.length ≤ 10 then
     str "\nSkipped files:\n" ::
       st.skippedFiles.map
         (fun pr => str "- " ++ pathToStr pr.1 ++ str " (" ++ pr.2 ++ str ")\n")
   else if 10 < st.skippedFiles.length then
     (str "\nSkipped files (first 10 of " ++ natToStr st.skippedFiles.length ++ str "):\n") ::
       (st.skippedFiles.take 10).map
         (fun pr => str "- " ++ pathToStr pr.1 ++ str " (" ++ pr.2 ++ str ")\n")
   else [])

/-- The value `extractRepoContext` resolves with. -/
structure ExtractResult where
  content : Str
  fileCount : Nat
  skippedCount : Nat
  totalSize : Nat
  excludedPatterns : List Str
deriving DecidableEq, Repr

/-- The walk state just before the file loop. -/
def initialWalkState (fuel : Nat) (rootDirStr ts : Str) (fs : List FsEntry)
    (igf : IgnoreFiles) (o : ExtractOptions) : WalkState :=
  { parts := initialParts fuel rootDirStr ts fs igf o,
    outputChars := initialDigestChars fuel rootDirStr ts fs igf o,
    fileCount := 0, skippedCount := 0, totalSize := 0,
    processedFiles := [], skippedFiles := [] }

/-- Embedding of `extractRepoContext(rootDir, options)`: enumerate and filter
candidates, emit header/tree/exclusions, walk the files under the budgets,
then append the summary footer. -/
def extractRepoContext (fuel : Nat) (rootDirStr ts : Str) (fs : List FsEntry)
    (igf : IgnoreFiles) (o : ExtractOptions) : ExtractResult :=
  let stF := (candidateFiles fuel o igf fs).foldl (budgetStep o)
    (initialWalkState fuel rootDirStr ts fs igf o)
  { content := (stF.parts ++ summaryParts stF).flatten,
    fileCount := stF.fileCount, skippedCount := stF.skippedCount,
    totalSize := stF.totalSize, excludedPatterns := excludedPatternsMeta o igf }

/-! ## Orchestrator (`extractRepoContextRobust`)

The orchestrator is embedded as a pure function of its inputs plus the two
external effects it consumes: the cache store contents and the outcome of the
`git clone` invocation.  The returned `RunTrace` carries, besides the
discriminated result and the updated store, three observability flags: whether
a fetch was attempted, whether the temporary workspace was created, and
whether the `finally` block removed it.  Durations (`Date.now() - startTime`)
are wall-clock values outside the model and are fixed at `0`. -/

/-- The option object of `extractRepoContextRobust`, with its source
defaults.  `success` is the raw `options.success` property the `finally`
block reads: it is `undefined` (`none`, falsy) unless a caller explicitly
passes one — no caller in the repository does. -/
structure RobustOptions extends ExtractOptions where
  cleanupOnSuccess : Bool := true
  cleanupOnError : Bool := true
  useCache : Bool := true
  success : Option Bool := none
deriving Repr

/-- JavaScript truthiness of the optional `success` property. -/
def truthy : Option Bool → Bool
  | some b => b
  | none => false

/-- The `finally`-block cleanup test, verbatim from the source:
`(options.success && cleanupOnSuccess) || (!options.success && cleanupOnError)`.
Note that it reads `options.success` — a property of the caller's option
object — not the pipeline outcome. -/
def cleanupCondition (o : RobustOptions) : Bool :=
  (truthy o.success && o.cleanupOnSuccess) || (!truthy o.success && o.cleanupOnError)

/-- The outcome of the external `git clone` invocation for this request:
either a populated workspace (with the ignore files found in it), or a
failure carrying the process stderr and the exception message. -/
inductive CloneOutcome where
  | ok (fs : List FsEntry) (igf : IgnoreFiles)
  | fail (stderr : Str) (errMsg : Str)

/-- A failure payload (`result.error`). -/
structure RobustFailure where
  type : ErrorType
  message : Str
  suggestion : Str
  originalError : Option Str := none
  stderr : Option Str := none
deriving DecidableEq, Repr

/-- The discriminated result of `extractRepoContextRobust`, one constructor
per `ResultType` tag. -/
inductive RunResult where
  | success (content : Str) (fileCount : Nat) (totalSize : Nat)
  | validationError (error : RobustFailure)
  | cloneError (error : RobustFailure)
  | extractionError (error : RobustFailure)
deriving DecidableEq, Repr

/-- The observable outcome of one orchestrator run. -/
structure RunTrace where
  result : RunResult
  fetchAttempted : Bool
  workspaceCreated : Bool
  cleanedUp : Bool
  store : CacheStore
deriving DecidableEq, Repr

/-- Embedding of `extractRepoContextRobust(repoUrl, options)`.  The pipeline
order is the source's: normalize the URL, consult the cache first when
enabled (a hit returns `SUCCESS` immediately, before any validation), then
validate, then create the workspace and clone, then extract, then best-effort
cache-write.  The `finally` block removes the workspace only when it was
created and `cleanupCondition` holds. -/
def extractRepoContextRobust (genFilename : Str → Str) (fuel : Nat) (now : Int)
    (tempDirStr ts : Str) (repoUrl : Str) (o : RobustOptions) (store : CacheStore)
    (clone : CloneOutcome) : RunTrace :=
  let normalizedUrl := stripGitSuffix repoUrl
  let cached := if o.useCache then getCachedExtraction store now normalizedUrl else none
  match cached with
  | some c =>
    { result := .success c.content c.fileCount c.totalSize,
      fetchAttempted := false, workspaceCreated := false, cleanedUp := false,
      store := store }
  | none =>
    let validation := validateRepoUrl (some repoUrl)
    if !validation.valid then
      { result := .validationError
          { type := .INVALID_URL, message := validation.error.getD [],
            suggestion := str "Please provide a valid Git repository URL." },
        fetchAttempted := false, workspaceCreated := false, cleanedUp := false,
        store := store }
    else
      match clone with
      | .fail stderr errMsg =>
        let ce := classifyCloneError stderr (some errMsg)
        { result := .cloneError
            { type := ce.type, message := ce.message, suggestion := ce.suggestion,
              originalError := some errMsg, stderr := some stderr },
          fetchAttempted := true, workspaceCreated := true,
          cleanedUp := cleanupCondition o, store := store }
      | .ok fs igf =>
        let cloneDirStr := tempDirStr ++ str "/" ++ basename (stripGitSuffix repoUrl)
        let ex := extractRepoContext fuel cloneDirStr ts fs igf o.toExtractOptions
        let store2 :=
          if o.useCache then
            setCachedExtraction genFilename store now normalizedUrl
              { content := ex.content, fileCount := ex.fileCount,
                totalSize := ex.totalSize, duration := 0 }
          else store
        { result := .success ex.content ex.fileCount ex.totalSize,
          fetchAttempted := true, workspaceCreated := true,
          cleanedUp := cleanupCondition o, store := store2 }

/-! ## Observers used by the statements -/

/-- The `ResultType` tags from `extractRepoContextRobust.js`. -/
inductive ResultType where
  | SUCCESS
  | CLONE_ERROR
  | EXTRACTION_ERROR
  | VALIDATION_ERROR
deriving DecidableEq, Repr

/-- The `type` tag of a run result. -/
def RunResult.rtype : RunResult → ResultType
  | .success _ _ _ => .SUCCESS
  | .validationError _ => .VALIDATION_ERROR
  | .cloneError _ => .CLONE_ERROR
  | .extractionError _ => .EXTRACTION_ERROR

/-- The directory or file name a tree line displays, if any. -/
def treeLineName : TreeLine → Option Str
  | .rootLine _ => none
  | .entryLine _ _ n _ => some n
  | .noiseLine _ _ n => some n
  | .truncLine _ => none

/-- Whether a tree line is the truncation marker. -/
def isTruncLine : TreeLine → Bool
  | .truncLine _ => true
  | _ => false

/-- Number of truncation-marker lines in a rendered tree. -/
def countTrunc (ls : List TreeLine) : Nat := (ls.filter isTruncLine).length

/-! ## Concrete fixtures used by witnesses and counterexamples -/

/-- An empty walk state. -/
def stEmptyWalk : WalkState := ⟨[], 0, 0, 0, 0, [], []⟩

/-- A candidate whose `statSync` threw. -/
def cReadErr : Candidate := ⟨[str "bad"], none, none⟩

/-- A small readable candidate. -/
def cGoodA : Candidate := ⟨[str "a"], some 1, some (str "x")⟩

/-- Another small readable candidate. -/
def cGoodB : Candidate := ⟨[str "b"], some 1, some (str "y")⟩

/-- A one-file workspace. -/
def c2fs : List FsEntry := [.file (str "a.txt") (some 3) (some (str "hi"))]

/-- Options with a character budget smaller than any digest header. -/
def c2opts : ExtractOptions := { maxOutputChars := 10 }

/-- Options with every ignore layer disabled. -/
def c3opts : ExtractOptions :=
  { respectGitIgnore := false, respectGeminiIgnore := false, useDefaultExcludes := false }

/-- A workspace holding a `.git` directory next to one source file. -/
def c3fs : List FsEntry :=
  [.dir (str ".git") [.file (str "config") (some 1) (some (str "x"))],
   .file (str "a.txt") (some 1) (some (str "y"))]

/-- A flat workspace with four files, used with a tree budget of three. -/
def c8fs : List FsEntry :=
  [.file (str "a") (some 1) (some (str "x")), .file (str "b") (some 1) (some (str "x")),
   .file (str "c") (some 1) (some (str "x")), .file (str "d") (some 1) (some (str "x"))]

/-- Options asking to keep the workspace on error but remove it on success. -/
def c1opts : RobustOptions :=
  { cleanupOnSuccess := true, cleanupOnError := false, useCache := false }

/-- A run with `c1opts` whose clone and extraction succeed. -/
def c1run : RunTrace :=
  extractRepoContextRobust (fun _ => str "f.txt") 5 0 (str "/tmp/t") (str "T")
    (str "https://github.com/a/b.git") c1opts ⟨[], []⟩
    (.ok [.file (str "a.txt") (some 3) (some (str "hi"))] {})

/-- A store holding an entry under the invalid locator `not-a-valid-url`. -/
def c4store : CacheStore :=
  ⟨[(str "not-a-valid-url", ⟨str "f", 0, 6, 2, 3, 1⟩)], [(str "f", str "CACHED")]⟩

/-- A cached run of the orchestrator on the invalid locator. -/
def c4run : RunTrace :=
  extractRepoContextRobust (fun _ => str "g") 3 0 (str "/tmp/t") (str "T")
    (str "not-a-valid-url") {} c4store (.fail [] [])

/-! ## Helper lemmas -/

theorem assocFind_assocSet (k : Str) (v : α) (l : List (Str × α)) :
    assocFind k (assocSet k v l) = some v := by
  induction l with
  | nil => simp [assocSet, assocFind]
  | cons h t ih =>
    obtain ⟨k2, w⟩ := h
    by_cases hk : k2 = k
    · simp [assocSet, assocFind, hk]
    · simp [assocSet, assocFind, hk, ih]

/-! ## Claim C7: cache get/put behaviour -/

/-- C7: for every cache key, `getCachedExtraction` misses both when no entry
exists and when the stored entry's age exceeds the fixed expiry window; the
read does not remove the expired entry (the embedded read is a pure function
of the store, mirroring the source, so the index still holds the entry), and
`setCachedExtraction` unconditionally overwrites the index entry for the
key. -/
theorem cache_get_miss_put_overwrites :
    ∀ (store : CacheStore) (now : Int) (url : Str),
      (assocFind url store.index = none → getCachedExtraction store now url = none) ∧
      (∀ e, assocFind url store.index = some e → CACHE_EXPIRY_MS < now - e.timestamp →
        getCachedExtraction store now url = none ∧ assocFind url store.index = some e) ∧
      (∀ (genF : Str → Str) (res : ExtractionToCache),
        assocFind url (setCachedExtraction genF store now url res).index =
          some { filename := genF url, timestamp := now, size := res.content.length,
                 fileCount := res.fileCount, totalSize := res.totalSize,
                 duration := res.duration }) := by
  intro store now url
  refine ⟨?_, ?_, ?_⟩
  · intro h
    simp [getCachedExtraction, h]
  · intro e h hexp
    exact ⟨by simp [getCachedExtraction, h, hexp], h⟩
  · intro genF res
    simpa [setCachedExtraction] using
      assocFind_assocSet url
        { filename := genF url, timestamp := now, size := res.content.length,
          fileCount := res.fileCount, totalSize := res.totalSize,
          duration := res.duration } store.index

/-- Witness for C7 at concrete inputs: an empty store misses, a 24h-stale
entry misses while still being physically present, and a put overwrites an
existing entry for the key. -/
theorem cache_get_miss_put_overwrites_witness :
    getCachedExtraction ⟨[], []⟩ 0 (str "u") = none ∧
    (getCachedExtraction
        ⟨[(str "u", ⟨str "f", 0, 1, 1, 1, 0⟩)], [(str "f", str "c")]⟩ 86400001
        (str "u") = none ∧
      assocFind (str "u")
        (⟨[(str "u", ⟨str "f", 0, 1, 1, 1, 0⟩)], [(str "f", str "c")]⟩ : CacheStore).index =
          some ⟨str "f", 0, 1, 1, 1, 0⟩) ∧
    assocFind (str "u")
      (setCachedExtraction (fun _ => str "g")
        ⟨[(str "u", ⟨str "f", 0, 1, 1, 1, 0⟩)], [(str "f", str "c")]⟩ 7 (str "u")
        ⟨str "cc", 2, 3, 4⟩).index =
      some ⟨str "g", 7, 2, 2, 3, 4⟩ :=
  ⟨(cache_get_miss_put_overwrites ⟨[], []⟩ 0 (str "u")).1 (by decide),
   (cache_get_miss_put_overwrites _ 86400001 (str "u")).2.1 ⟨str "f", 0, 1, 1, 1, 0⟩
     (by decide) (by decide),
   (cache_get_miss_put_overwrites _ 7 (str "u")).2.2 (fun _ => str "g") ⟨str "cc", 2, 3, 4⟩⟩

/-! ## Claim C6: clone-error classification order -/

/-- C6, amended: the classifier inspects the diagnostics in fixed priority
order and returns the first matching category with its fixed message and
remediation suggestion: timeout signal → Timeout; "repository not found" →
NotFoundOrPrivate; "could not resolve host" → Network; "permission denied" or
"authentication failed" → PermissionDenied; "fatal:" together with "not a git
repository" → InvalidTarget; otherwise → Unknown.  In particular diagnostics
with both a timeout signal and "repository not found" classify as Timeout. -/
theorem classifyCloneError_priority_order :
    ∀ (stderr : Str) (oe : Option Str),
      (timeoutSignal oe = true →
        classifyCloneError stderr oe =
          { type := .TIMEOUT,
            message := str "Sorry, repository is too large. Try a smaller repo.",
            suggestion := str "Try a smaller repository. Large repositories like frameworks or operating systems may exceed the time limit." }) ∧
      (timeoutSignal oe = false →
        jsIncludes (jsToLower stderr) (str "repository not found") = true →
        classifyCloneError stderr oe =
          { type := .REPOSITORY_NOT_FOUND,
            message := str "Repository not found. It may be private, non-existent, or you may lack access.",
            suggestion := str "Verify the repository URL is correct and public, or provide authentication for private repos." }) ∧
      (timeoutSignal oe = false →
        jsIncludes (jsToLower stderr) (str "repository not found") = false →
        jsIncludes (jsToLower stderr) (str "could not resolve host") = true →
        classifyCloneError stderr oe =
          { type := .NETWORK_ERROR,
            message := str "Network error: Could not resolve hostname.",
            suggestion := str "Check your internet connection and verify the Git hosting service URL." }) ∧
      (timeoutSignal oe = false →
        jsIncludes (jsToLower stderr) (str "repository not found") = false →
        jsIncludes (jsToLower stderr) (str "could not resolve host") = false →
        (jsIncludes (jsToLower stderr) (str "permission denied") ||
          jsIncludes (jsToLower stderr) (str "authentication failed")) = true →
        classifyCloneError stderr oe =
          { type := .PERMISSION_DENIED,
            message := str "Authentication required or permission denied.",
            suggestion := str "This repository requires authentication. Provide a GitHub token or SSH key." }) ∧
      (timeoutSignal oe = false →
        jsIncludes (jsToLower stderr) (str "repository not found") = false →
        jsIncludes (jsToLower stderr) (str "could not resolve host") = false →
        (jsIncludes (jsToLower stderr) (str "permission denied") ||
          jsIncludes (jsToLower stderr) (str "authentication failed")) = false →
        (jsIncludes (jsToLower stderr) (str "fatal:") &&
          jsIncludes (jsToLower stderr) (str "not a git repository")) = true →
        classifyCloneError stderr oe =
          { type := .INVALID_URL,
            message := str "Invalid Git repository URL.",
            suggestion := str "Ensure the URL points to a valid Git repository." }) ∧
      (timeoutSignal oe = false →
        jsIncludes (jsToLower stderr) (str "repository not found") = false →
        jsIncludes (jsToLower stderr) (str "could not resolve host") = false →
        (jsIncludes (jsToLower stderr) (str "permission denied") ||
          jsIncludes (jsToLower stderr) (str "authentication failed")) = false →
        (jsIncludes (jsToLower stderr) (str "fatal:") &&
          jsIncludes (jsToLower stderr) (str "not a git repository")) = false →
        classifyCloneError stderr oe =
          { type := .UNKNOWN,
            message := str "Unknown error occurred during cloning.",
            suggestion := str "Check the repository URL and try again." }) ∧
      (timeoutSignal oe = true →
        jsIncludes (jsToLower stderr) (str "repository not found") = true →
        (classifyCloneError stderr oe).type = .TIMEOUT) := by
  intro stderr oe
  refine ⟨?_, ?_, ?_, ?_, ?_, ?_, ?_⟩
  · intro h1
    simp [classifyCloneError, h1]
  · intro h1 h2
    simp [classifyCloneError, h1, h2]
  · intro h1 h2 h3
    simp [classifyCloneError, h1, h2, h3]
  · intro h1 h2 h3 h4
    simp [classifyCloneError, h1, h2, h3, h4]
  · intro h1 h2 h3 h4 h5
    simp [classifyCloneError, h1, h2, h3, h4, h5]
  · intro h1 h2 h3 h4 h5
    simp [classifyCloneError, h1, h2, h3, h4, h5]
  · intro h1 _
    simp [classifyCloneError, h1]

/-- C6 counterexample: diagnostics containing "not a git repository" without
"fatal:" classify as Unknown, not as InvalidTarget as the claim states. -/
theorem classifyCloneError_not_a_git_repo_alone_is_unknown :
    (classifyCloneError (str "not a git repository") none).type = .UNKNOWN ∧
    (classifyCloneError (str "not a git repository") none).type ≠ .INVALID_URL := by
  decide

/-- Witness for C6: each clause of the priority order exercised at concrete
diagnostics, including the timeout-beats-not-found case. -/
theorem classifyCloneError_priority_order_witness :
    (classifyCloneError (str "remote: Repository not found.")
        (some (str "connect ETIMEDOUT"))).type = .TIMEOUT ∧
    (classifyCloneError (str "fatal: repository not found") none).type =
      .REPOSITORY_NOT_FOUND ∧
    (classifyCloneError (str "fatal: Could not resolve host: github.com") none).type =
      .NETWORK_ERROR ∧
    (classifyCloneError (str "fatal: Authentication failed") none).type =
      .PERMISSION_DENIED ∧
    (classifyCloneError (str "fatal: not a git repository") none).type =
      .INVALID_URL ∧
    (classifyCloneError (str "something else") none).type = .UNKNOWN :=
  ⟨(classifyCloneError_priority_order _ _).2.2.2.2.2.2 (by decide) (by decide),
   by rw [(classifyCloneError_priority_order (str "fatal: repository not found") none).2.1
       (by decide) (by decide)],
   by rw [(classifyCloneError_priority_order
       (str "fatal: Could not resolve host: github.com") none).2.2.1
       (by decide) (by decide) (by decide)],
   by rw [(classifyCloneError_priority_order (str "fatal: Authentication failed") none).2.2.2.1
       (by decide) (by decide) (by decide) (by decide)],
   by rw [(classifyCloneError_priority_order (str "fatal: not a git repository") none).2.2.2.2.1
       (by decide) (by decide) (by decide) (by decide) (by decide)],
   by rw [(classifyCloneError_priority_order (str "something else") none).2.2.2.2.2.1
       (by decide) (by decide) (by decide) (by decide) (by decide)]⟩

/-! ## Budget-walk lemmas -/

theorem budgetStep_skip_or_admit (o : ExtractOptions) (st : WalkState) (c : Candidate) :
    (∃ r, budgetStep o st c = addSkip st c r) ∨
    (∃ size raw, c.stat = some size ∧ c.text = some raw ∧ st.fileCount < o.maxFiles ∧
      st.outputChars + (fileSectionFor o c raw).length ≤ o.maxOutputChars ∧
      budgetStep o st c = addFile st c size (fileSectionFor o c raw)) := by
  rcases c with ⟨p, stat, text⟩
  unfold budgetStep
  by_cases h1 : o.maxFiles ≤ st.fileCount
  · exact Or.inl ⟨reasonMaxFiles, by simp [h1]⟩
  · simp only [if_neg h1]
    cases stat with
    | none => exact Or.inl ⟨reasonReadError, rfl⟩
    | some size =>
      by_cases h2 : o.maxFileSize < size
      · exact Or.inl ⟨reasonTooLarge, by simp [h2]⟩
      · simp only [if_neg h2]
        cases text with
        | none => exact Or.inl ⟨reasonNotText, rfl⟩
        | some raw =>
          by_cases h3 : o.maxOutputChars <
              st.outputChars + (fileSectionFor o ⟨p, some size, some raw⟩ raw).length
          · exact Or.inl ⟨reasonCharLimit, by simp [h3]⟩
          · simp only [if_neg h3]
            exact Or.inr ⟨size, raw, rfl, rfl, Nat.lt_of_not_le h1, Nat.not_lt.mp h3, rfl⟩

theorem budgetStep_facts (o : ExtractOptions) (st : WalkState) (c : Candidate) :
    (budgetStep o st c).fileCount + (budgetStep o st c).skippedCount
        = st.fileCount + st.skippedCount + 1 ∧
    (budgetStep o st c).fileCount ≤ max st.fileCount o.maxFiles ∧
    (∀ B, st.outputChars ≤ B → o.maxOutputChars ≤ B →
      (budgetStep o st c).outputChars ≤ B) := by
  rcases budgetStep_skip_or_admit o st c with ⟨r, heq⟩ | ⟨size, raw, _, _, hlt, hle, heq⟩
  · rw [heq]
    refine ⟨by simp [addSkip]; omega, by simp [addSkip], fun B hB _ => by simpa [addSkip] using hB⟩
  · rw [heq]
    refine ⟨by simp [addFile]; omega, ?_, ?_⟩
    · simp only [addFile]
      exact le_trans hlt (Nat.le_max_right _ _)
    · intro B _ hB
      simp only [addFile]
      omega

theorem walk_counts (o : ExtractOptions) :
    ∀ (cs : List Candidate) (st : WalkState),
      (cs.foldl (budgetStep o) st).fileCount + (cs.foldl (budgetStep o) st).skippedCount
        = st.fileCount + st.skippedCount + cs.length := by
  intro cs
  induction cs with
  | nil => intro st; simp
  | cons c t ih =>
    intro st
    have h := (budgetStep_facts o st c).1
    simp only [List.foldl_cons, List.length_cons]
    rw [ih (budgetStep o st c)]
    omega

theorem walk_fileCount_le (o : ExtractOptions) :
    ∀ (cs : List Candidate) (st : WalkState), st.fileCount ≤ o.maxFiles →
      (cs.foldl (budgetStep o) st).fileCount ≤ o.maxFiles := by
  intro cs
  induction cs with
  | nil => intro st h; simpa using h
  | cons c t ih =>
    intro st h
    simp only [List.foldl_cons]
    refine ih (budgetStep o st c) ?_
    have := (budgetStep_facts o st c).2.1
    exact le_trans this (Nat.max_le.mpr ⟨h, le_refl _⟩)

theorem walk_outputChars_le (o : ExtractOptions) :
    ∀ (cs : List Candidate) (st : WalkState) (B : Nat),
      st.outputChars ≤ B → o.maxOutputChars ≤ B →
      ∀ s ∈ List.scanl (budgetStep o) st cs, s.outputChars ≤ B := by
  intro cs
  induction cs with
  | nil =>
    intro st B h _ s hs
    simp only [List.scanl_nil, List.mem_singleton] at hs
    exact hs ▸ h
  | cons c t ih =>
    intro st B h hmax s hs
    rw [List.scanl_cons] at hs
    rcases List.mem_cons.mp hs with heq | hs2
    · exact heq ▸ h
    · exact ih (budgetStep o st c) B ((budgetStep_facts o st c).2.2 B h hmax) hmax s hs2

/-! ## Claim C5: included + skipped accounts for every candidate -/

/-- C5: for every extraction, the included-file count plus the skipped-file
count equals the number of non-excluded candidates (each candidate is either
admitted or recorded as skipped), and the included count never exceeds the
configured max-files limit. -/
theorem extractRepoContext_counts :
    ∀ (fuel : Nat) (rootDirStr ts : Str) (fs : List FsEntry) (igf : IgnoreFiles)
      (o : ExtractOptions),
      (extractRepoContext fuel rootDirStr ts fs igf o).fileCount +
          (extractRepoContext fuel rootDirStr ts fs igf o).skippedCount =
        (candidateFiles fuel o igf fs).length ∧
      (extractRepoContext fuel rootDirStr ts fs igf o).fileCount ≤ o.maxFiles := by
  intro fuel root ts fs igf o
  constructor
  · have h := walk_counts o (candidateFiles fuel o igf fs)
      (initialWalkState fuel root ts fs igf o)
    simp only [extractRepoContext]
    simp only [initialWalkState] at h
    simpa using h
  · have h := walk_fileCount_le o (candidateFiles fuel o igf fs)
      (initialWalkState fuel root ts fs igf o) (by simp [initialWalkState])
    simpa only [extractRepoContext] using h

/-! ## Claim C9: per-file check order and local error recovery -/

/-- C9: the per-file checks run in source order — file-count limit first;
then the `statSync` outcome, whose failure is caught individually and
recorded as a read-error skip; then the per-file byte limit, checked before
any content read; then text-decodability; then the character budget — and
each skip leaves the walk to continue over the remaining files (the fold
proceeds with the next candidate regardless of the outcome for this one). -/
theorem budgetStep_check_order :
    ∀ (o : ExtractOptions) (st : WalkState) (c : Candidate),
      (o.maxFiles ≤ st.fileCount → budgetStep o st c = addSkip st c reasonMaxFiles) ∧
      (st.fileCount < o.maxFiles → c.stat = none →
        budgetStep o st c = addSkip st c reasonReadError) ∧
      (∀ size, st.fileCount < o.maxFiles → c.stat = some size → o.maxFileSize < size →
        budgetStep o st c = addSkip st c reasonTooLarge) ∧
      (∀ size, st.fileCount < o.maxFiles → c.stat = some size → size ≤ o.maxFileSize →
        c.text = none → budgetStep o st c = addSkip st c reasonNotText) ∧
      (∀ size raw, st.fileCount < o.maxFiles → c.stat = some size → size ≤ o.maxFileSize →
        c.text = some raw →
        o.maxOutputChars < st.outputChars + (fileSectionFor o c raw).length →
        budgetStep o st c = addSkip st c reasonCharLimit) ∧
      (∀ rest : List Candidate,
        (c :: rest).foldl (budgetStep o) st = rest.foldl (budgetStep o) (budgetStep o st c)) := by
  intro o st c
  refine ⟨?_, ?_, ?_, ?_, ?_, fun rest => List.foldl_cons ..⟩
  · intro h
    simp [budgetStep, h]
  · intro h1 h2
    simp [budgetStep, Nat.not_le.mpr h1, h2]
  · intro size h1 h2 h3
    simp [budgetStep, Nat.not_le.mpr h1, h2, h3]
  · intro size h1 h2 h3 h4
    simp [budgetStep, Nat.not_le.mpr h1, h2, Nat.not_lt.mpr h3, h4]
  · intro size raw h1 h2 h3 h4 h5
    simp [budgetStep, Nat.not_le.mpr h1, h2, Nat.not_lt.mpr h3, h4, h5]

/-- Witness for C9: each check exercised at a concrete state and candidate,
including a `statSync` failure recorded as a read-error skip while the walk
continues to the next file. -/
theorem budgetStep_check_order_witness :
    budgetStep {} stEmptyWalk cReadErr = addSkip stEmptyWalk cReadErr reasonReadError ∧
    budgetStep { maxFiles := 0 } stEmptyWalk cGoodA =
      addSkip stEmptyWalk cGoodA reasonMaxFiles ∧
    [cReadErr, cGoodB].foldl (budgetStep {}) stEmptyWalk =
      [cGoodB].foldl (budgetStep {}) (budgetStep {} stEmptyWalk cReadErr) :=
  ⟨(budgetStep_check_order {} stEmptyWalk cReadErr).2.1 (by decide) (by decide),
   (budgetStep_check_order { maxFiles := 0 } stEmptyWalk cGoodA).1 (by decide),
   (budgetStep_check_order {} stEmptyWalk cReadErr).2.2.2.2.2 [cGoodB]⟩

/-! ## Claim C2: the global character budget -/

/-- C2, amended: the budget check runs before appending each file section, so
the running character total never grows past the configured budget: every
state of the walk satisfies `outputChars ≤ max initial maxOutputChars`, and
whenever the already-emitted header/tree/exclusion-summary text fits within
the budget, the running total never exceeds `maxOutputChars` at any point of
the walk.  (When the initial text alone already exceeds the budget the
running total starts — and stays — above it, which is what the
counterexample exhibits.) -/
theorem budget_check_before_append :
    (∀ (o : ExtractOptions) (cs : List Candidate) (st : WalkState),
      ∀ s ∈ List.scanl (budgetStep o) st cs,
        s.outputChars ≤ max st.outputChars o.maxOutputChars) ∧
    (∀ (fuel : Nat) (rootDirStr ts : Str) (fs : List FsEntry) (igf : IgnoreFiles)
       (o : ExtractOptions),
      initialDigestChars fuel rootDirStr ts fs igf o ≤ o.maxOutputChars →
      ∀ s ∈ List.scanl (budgetStep o) (initialWalkState fuel rootDirStr ts fs igf o)
          (candidateFiles fuel o igf fs),
        s.outputChars ≤ o.maxOutputChars) := by
  constructor
  · intro o cs st s hs
    exact walk_outputChars_le o cs st _ (Nat.le_max_left _ _) (Nat.le_max_right _ _) s hs
  · intro fuel root ts fs igf o hinit s hs
    refine walk_outputChars_le o _ _ o.maxOutputChars ?_ (le_refl _) s hs
    simpa [initialWalkState] using hinit

/-- C2 counterexample: with a 10-character budget, the running total already
exceeds `maxOutputChars` when the walk starts (it is initialized from the
header/tree/exclusion text), and still exceeds it when the walk ends — the
running digest length is not bounded by `maxOutputChars` for all inputs. -/
theorem budget_initial_exceeds_bound :
    c2opts.maxOutputChars <
      (initialWalkState 3 (str "/r") (str "T") c2fs {} c2opts).outputChars ∧
    c2opts.maxOutputChars <
      ((candidateFiles 3 c2opts {} c2fs).foldl (budgetStep c2opts)
        (initialWalkState 3 (str "/r") (str "T") c2fs {} c2opts)).outputChars := by
  decide

/-- Witness for C2 at a concrete run whose header fits the (default) budget:
the first walk state respects the bound. -/
theorem budget_check_before_append_witness :
    (initialWalkState 3 (str "/r") (str "T") c2fs {} {}).outputChars ≤
      ({} : ExtractOptions).maxOutputChars :=
  budget_check_before_append.2 3 (str "/r") (str "T") c2fs {} {} (by decide)
    (initialWalkState 3 (str "/r") (str "T") c2fs {} {}) (by decide)

/-! ## Sorting and tree-traversal helper lemmas -/

theorem insertSorted_perm (le : α → α → Bool) (a : α) (l : List α) :
    (insertSorted le a l).Perm (a :: l) := by
  induction l with
  | nil => simp [insertSorted]
  | cons b t ih =>
    unfold insertSorted
    by_cases h : le a b
    · simp [h]
    · simp only [if_neg h]
      exact (ih.cons b).trans (List.Perm.swap a b t)

theorem insertionSort_perm (le : α → α → Bool) (l : List α) :
    (insertionSort le l).Perm l := by
  induction l with
  | nil => simp [insertionSort]
  | cons a t ih =>
    exact (insertSorted_perm le a (insertionSort le t)).trans (ih.cons a)

theorem mem_insertionSort (le : α → α → Bool) (l : List α) (a : α) :
    a ∈ insertionSort le l ↔ a ∈ l :=
  (insertionSort_perm le l).mem_iff

theorem processEntries_inv (maxItems : Nat) (ignoreFn : List Str → Bool)
    (recurse : List FsEntry → List Str → Str → TreeState → TreeState)
    (Inv : TreeState → Prop)
    (hrec : ∀ cs rp pfx st, Inv st → Inv (recurse cs rp pfx st))
    (hpush : ∀ (st : TreeState) (l : TreeLine), Inv st → st.itemCount < maxItems →
      (∃ n, treeLineName l = some n ∧ ∃ rp, ignoreFn (rp ++ [n]) = false) →
      Inv ⟨st.lines ++ [l], st.itemCount + 1⟩) :
    ∀ (relPath : List Str) (pfx : Str) (es : List FsEntry) (st : TreeState),
      (∀ e ∈ es, ignoreFn (relPath ++ [e.name]) = false) →
      Inv st → Inv (processEntries maxItems recurse relPath pfx es st) := by
  intro relPath pfx es
  induction es with
  | nil =>
    intro st _ h
    simpa [processEntries] using h
  | cons e rest ih =>
    intro st hall hInv
    have htail : ∀ x ∈ rest, ignoreFn (relPath ++ [x.name]) = false :=
      fun x hx => hall x (List.mem_cons_of_mem e hx)
    have hme : ignoreFn (relPath ++ [e.name]) = false := hall e (List.mem_cons_self e rest)
    unfold processEntries
    by_cases hcnt : maxItems ≤ st.itemCount
    · simp only [if_pos hcnt]
      exact ih st htail hInv
    · simp only [if_neg hcnt]
      have hlt : st.itemCount < maxItems := Nat.lt_of_not_le hcnt
      cases e with
      | file n stt txt =>
        exact ih _ htail (hpush st (.entryLine pfx rest.isEmpty n false) hInv hlt
          ⟨n, rfl, relPath, hme⟩)
      | dir n cs =>
        by_cases hnoise : DEFAULT_IGNORED_FOLDERS.contains n
        · simp only [if_pos hnoise]
          exact ih _ htail (hpush st (.noiseLine pfx rest.isEmpty n) hInv hlt
            ⟨n, rfl, relPath, hme⟩)
        · simp only [if_neg hnoise]
          exact ih _ htail (hrec cs (relPath ++ [n]) (pfx ++ extensionStr rest.isEmpty)
            _ (hpush st (.entryLine pfx rest.isEmpty n true) hInv hlt
              ⟨n, rfl, relPath, hme⟩))

theorem traverseDir_inv (ignoreFn : List Str → Bool) (maxItems : Nat)
    (Inv : TreeState → Prop)
    (htrunc : ∀ (st : TreeState) (pfx : Str), Inv st → st.itemCount = maxItems →
      Inv ⟨st.lines ++ [.truncLine pfx], st.itemCount + 1⟩)
    (hpush : ∀ (st : TreeState) (l : TreeLine), Inv st → st.itemCount < maxItems →
      (∃ n, treeLineName l = some n ∧ ∃ rp, ignoreFn (rp ++ [n]) = false) →
      Inv ⟨st.lines ++ [l], st.itemCount + 1⟩) :
    ∀ (fuel : Nat) (cs : List FsEntry) (relPath : List Str) (pfx : Str) (st : TreeState),
      Inv st → Inv (traverseDir ignoreFn maxItems fuel cs relPath pfx st) := by
  intro fuel
  induction fuel with
  | zero =>
    intro cs relPath pfx st h
    simpa [traverseDir] using h
  | succ f ih =>
    intro cs relPath pfx st hInv
    unfold traverseDir
    by_cases h1 : maxItems ≤ st.itemCount
    · simp only [if_pos h1]
      by_cases h2 : st.itemCount = maxItems
      · simp only [if_pos h2]
        exact htrunc st pfx hInv h2
      · simp only [if_neg h2]
        exact hInv
    · simp only [if_neg h1]
      refine processEntries_inv maxItems ignoreFn _ Inv
        (fun cs2 rp2 pfx2 st2 h2 => ih cs2 rp2 pfx2 st2 h2) hpush relPath pfx _ st ?_ hInv
      intro e he
      have hf : e ∈ cs.filter (fun e => !ignoreFn (relPath ++ [e.name])) :=
        (mem_insertionSort entryLe _ e).mp he
      have := List.of_mem_filter hf
      simpa using this

/-! ## Claim C3: exclusion of the version-control metadata directory -/

/-- C3, amended: paths inside `.git` are excluded from the candidate file
list (and hence from the file sections) whenever `respectGitIgnore` or
`useDefaultExcludes` is enabled — the former through the always-added `.git`
ignore pattern, the latter through the built-in `**/.git/**` glob — and the
rendered tree contains no `.git` entry whenever `respectGitIgnore` is
enabled.  (With `respectGitIgnore` disabled the tree shows a collapsed
`.git/...` marker, and with both toggles disabled `.git` paths appear as
candidates, as the counterexample exhibits.) -/
theorem git_dir_exclusion :
    (∀ (fuel : Nat) (o : ExtractOptions) (igf : IgnoreFiles) (fs : List FsEntry)
       (c : Candidate),
      o.respectGitIgnore = true ∨ o.useDefaultExcludes = true →
      c ∈ candidateFiles fuel o igf fs → ¬ str ".git" ∈ c.path.dropLast) ∧
    (∀ (fuel maxItems : Nat) (o : ExtractOptions) (igf : IgnoreFiles) (rootName : Str)
       (fs : List FsEntry), o.respectGitIgnore = true →
      ∀ l ∈ generateDirectoryTree fuel (shouldIgnore o igf) maxItems rootName fs,
        treeLineName l ≠ some (str ".git")) := by
  constructor
  · intro fuel o igf fs c htog hc hgit
    simp only [candidateFiles] at hc
    have hc2 : c ∈ List.filter (fun c => !shouldIgnore o igf c.path)
        (List.filter (fun c => !(effectiveExcludes o).any (matchGlob c.path))
          (fileEntriesAux fuel fs)) :=
      (mem_insertionSort pathLe _ c).mp hc
    have hig := List.of_mem_filter hc2
    have hglob := List.of_mem_filter (List.mem_of_mem_filter hc2)
    rcases htog with hgi | hde
    · -- the forced `.git` pattern in the gitignore layer matches
      have hmem : str ".git" ∈ c.path := (List.dropLast_sublist c.path).subset hgit
      have hmatch : igMatches (gitIgnorePatterns o igf) c.path = true := by
        refine List.any_eq_true.mpr ⟨str ".git", ?_, ?_⟩
        · simp [gitIgnorePatterns, hgi]
        · simpa [List.elem_iff] using hmem
      have htrue : shouldIgnore o igf c.path = true := by
        simp [shouldIgnore, hgi, hmatch]
      have hfalse : shouldIgnore o igf c.path = false := by simpa using hig
      rw [htrue] at hfalse
      simp at hfalse
    · -- the `**/.git/**` default glob matches
      have hmatch : (effectiveExcludes o).any (matchGlob c.path) = true := by
        refine List.any_eq_true.mpr ⟨.dirAny (str ".git"), ?_, ?_⟩
        · simp [effectiveExcludes, hde, DEFAULT_EXCLUDES]
        · simpa [matchGlob, List.elem_iff] using hgit
      simp [hmatch] at hglob
  · intro fuel maxItems o igf rootName fs hgi l hl
    have key : ∀ (st : TreeState), (∀ l2 ∈ st.lines, treeLineName l2 ≠ some (str ".git")) →
        ∀ l2 ∈ (traverseDir (shouldIgnore o igf) maxItems fuel fs [] [] st).lines,
          treeLineName l2 ≠ some (str ".git") := by
      intro st h0
      refine traverseDir_inv (shouldIgnore o igf) maxItems
        (fun st2 => ∀ l2 ∈ st2.lines, treeLineName l2 ≠ some (str ".git")) ?_ ?_ fuel fs [] [] st h0
      · intro st2 pfx hInv _ l2 hl2
        rcases List.mem_append.mp hl2 with h | h
        · exact hInv l2 h
        · simp only [List.mem_singleton] at h
          subst h
          simp [treeLineName]
      · intro st2 l2 hInv _ hname l3 hl3
        rcases List.mem_append.mp hl3 with h | h
        · exact hInv l3 h
        · simp only [List.mem_singleton] at h
          subst h
          intro hcontra
          rcases hname with ⟨n2, hn2, rp, hfalse⟩
          rw [hcontra] at hn2
          rcases Option.some.injEq .. ▸ hn2 with rfl
          replace hfalse : shouldIgnore o igf (rp ++ [str ".git"]) = false := hfalse
          have htrue : shouldIgnore o igf (rp ++ [str ".git"]) = true := by
            refine Bool.or_eq_true_iff.mpr (Or.inl ?_)
            refine Bool.and_eq_true_iff.mpr ⟨hgi, ?_⟩
            refine List.any_eq_true.mpr ⟨str ".git", ?_, ?_⟩
            · simp [gitIgnorePatterns, hgi]
            · simp [List.elem_iff]
          rw [hfalse] at htrue
          simp at htrue
    refine key { lines := [.rootLine rootName], itemCount := 0 } ?_ l hl
    intro l2 hl2
    simp only [List.mem_singleton] at hl2
    subst hl2
    simp [treeLineName]

/-- C3 counterexample: with all three toggles disabled a `.git/config`
candidate survives, and with `respectGitIgnore` disabled the tree shows the
collapsed `.git/...` marker line — `.git` is not excluded irrespective of
options. -/
theorem git_dir_included_when_toggles_off :
    [str ".git", str "config"] ∈ (candidateFiles 3 c3opts {} c3fs).map Candidate.path ∧
    TreeLine.noiseLine [] false (str ".git") ∈
      generateDirectoryTree 3 (shouldIgnore c3opts {}) 200 (str "repo") c3fs := by
  decide

/-- Witness for C3: with default options a `.git/config`-free candidate list
(the `a.txt` candidate) and the root line of the rendered tree satisfy the
amended exclusions at concrete inputs. -/
theorem git_dir_exclusion_witness :
    ¬ str ".git" ∈ (⟨[str "a.txt"], some 1, some (str "y")⟩ : Candidate).path.dropLast ∧
    treeLineName (.rootLine (str "repo")) ≠ some (str ".git") :=
  ⟨git_dir_exclusion.1 3 {} {} c3fs ⟨[str "a.txt"], some 1, some (str "y")⟩
      (Or.inl rfl) (by decide),
   git_dir_exclusion.2 3 200 {} {} (str "repo") c3fs rfl (.rootLine (str "repo"))
      (by decide)⟩

/-! ## Comparator lemmas -/

theorem natCmpOrd_lt_iff (m n : Nat) : natCmpOrd m n = .lt ↔ m < n := by
  constructor
  · intro h
    unfold natCmpOrd at h
    split_ifs at h <;> first | assumption | simp_all
  · intro h
    simp [natCmpOrd, h]

theorem natCmpOrd_eq_iff (m n : Nat) : natCmpOrd m n = .eq ↔ m = n := by
  constructor
  · intro h
    unfold natCmpOrd at h
    split_ifs at h with h1 h2 <;> first | exact absurd h (by decide) | omega
  · intro h
    subst h
    simp [natCmpOrd]

theorem natCmpOrd_swap (m n : Nat) : natCmpOrd n m = (natCmpOrd m n).swap := by
  rcases Nat.lt_trichotomy m n with h | h | h
  · have h1 : ¬ n < m := by omega
    simp [natCmpOrd, h1, h, Ordering.swap]
  · subst h
    simp [natCmpOrd, Ordering.swap]
  · have h1 : ¬ m < n := by omega
    simp [natCmpOrd, h1, h, Ordering.swap]

theorem charToNat_inj (c d : Char) (h : c.toNat = d.toNat) : c = d :=
  Char.ext (UInt32.ext h)

theorem listCmp_eq_iff (a b : Str) : listCmp a b = .eq ↔ a = b := by
  induction a generalizing b with
  | nil => cases b <;> simp [listCmp]
  | cons c cs ih =>
    cases b with
    | nil => simp [listCmp]
    | cons d ds =>
      simp only [listCmp]
      rcases h : natCmpOrd c.toNat d.toNat with _ | _ | _
      · simp only []
        constructor
        · intro h2; simp_all
        · rintro ⟨rfl, rfl⟩
          rw [(natCmpOrd_eq_iff _ _).mpr rfl] at h
          simp_all
      · have hcd : c = d := charToNat_inj c d ((natCmpOrd_eq_iff _ _).mp h)
        subst hcd
        simpa using ih ds
      · simp only []
        constructor
        · intro h2; simp_all
        · rintro ⟨rfl, rfl⟩
          rw [(natCmpOrd_eq_iff _ _).mpr rfl] at h
          simp_all

theorem listCmp_swap (a b : Str) : listCmp b a = (listCmp a b).swap := by
  induction a generalizing b with
  | nil => cases b <;> simp [listCmp, Ordering.swap]
  | cons c cs ih =>
    cases b with
    | nil => simp [listCmp, Ordering.swap]
    | cons d ds =>
      simp only [listCmp, natCmpOrd_swap c.toNat d.toNat]
      rcases h : natCmpOrd c.toNat d.toNat with _ | _ | _ <;>
        simp [h, Ordering.swap, ih ds]

theorem listCmp_le_trans :
    ∀ (a b c : Str), listCmp a b ≠ .gt → listCmp b c ≠ .gt → listCmp a c ≠ .gt := by
  intro a
  induction a with
  | nil =>
    intro b c _ _
    cases c <;> simp [listCmp]
  | cons x xs ih =>
    intro b c h1 h2
    cases b with
    | nil => simp [listCmp] at h1
    | cons y ys =>
      cases c with
      | nil => simp [listCmp] at h2
      | cons z zs =>
        simp only [listCmp] at h1 h2 ⊢
        rcases hxy : natCmpOrd x.toNat y.toNat with _ | _ | _
        · rcases hyz : natCmpOrd y.toNat z.toNat with _ | _ | _
          · have hxz : natCmpOrd x.toNat z.toNat = .lt :=
              (natCmpOrd_lt_iff _ _).mpr
                (lt_trans ((natCmpOrd_lt_iff _ _).mp hxy) ((natCmpOrd_lt_iff _ _).mp hyz))
            simp [hxz]
          · have hxz : natCmpOrd x.toNat z.toNat = .lt :=
              (natCmpOrd_lt_iff _ _).mpr
                ((natCmpOrd_eq_iff _ _).mp hyz ▸ (natCmpOrd_lt_iff _ _).mp hxy)
            simp [hxz]
          · simp [hyz] at h2
        · rcases hyz : natCmpOrd y.toNat z.toNat with _ | _ | _
          · have hxz : natCmpOrd x.toNat z.toNat = .lt :=
              (natCmpOrd_lt_iff _ _).mpr
                ((natCmpOrd_eq_iff _ _).mp hxy ▸ (natCmpOrd_lt_iff _ _).mp hyz)
            simp [hxz]
          · have hxz : natCmpOrd x.toNat z.toNat = .eq := by
              rw [natCmpOrd_eq_iff]
              rw [natCmpOrd_eq_iff] at hxy hyz
              omega
            simp only [hxz]
            simp [hxy] at h1
            simp [hyz] at h2
            exact ih ys zs h1 h2
          · simp [hyz] at h2
        · simp [hxy] at h1

theorem localeCmp_swap (a b : Str) : localeCmp b a = (localeCmp a b).swap := by
  unfold localeCmp
  rw [listCmp_swap (jsToLower a) (jsToLower b), listCmp_swap a b]
  rcases listCmp (jsToLower a) (jsToLower b) with _ | _ | _ <;> simp [Ordering.swap]

theorem localeCmp_le_trans (a b c : Str) :
    localeCmp a b ≠ .gt → localeCmp b c ≠ .gt → localeCmp a c ≠ .gt := by
  intro h1 h2
  unfold localeCmp at h1 h2 ⊢
  rcases hab : listCmp (jsToLower a) (jsToLower b) with _ | _ | _
  · rcases hbc : listCmp (jsToLower b) (jsToLower c) with _ | _ | _
    · have hac : listCmp (jsToLower a) (jsToLower c) = .lt := by
        have hne := listCmp_le_trans (jsToLower a) (jsToLower b) (jsToLower c)
          (by simp [hab]) (by simp [hbc])
        rcases hac2 : listCmp (jsToLower a) (jsToLower c) with _ | _ | _
        · rfl
        · exfalso
          have heq := (listCmp_eq_iff _ _).mp hac2
          rw [← heq] at hbc
          rw [listCmp_swap] at hab
          rcases h3 : listCmp (jsToLower b) (jsToLower a) with _ | _ | _ <;>
            simp [h3, Ordering.swap] at hab <;> simp_all
        · exact absurd hac2 hne
      simp [hac]
    · have heq := (listCmp_eq_iff _ _).mp hbc
      have hac : listCmp (jsToLower a) (jsToLower c) = .lt := heq ▸ hab
      simp [hac]
    · simp [hbc] at h2
  · have heq := (listCmp_eq_iff _ _).mp hab
    rcases hbc : listCmp (jsToLower b) (jsToLower c) with _ | _ | _
    · have hac : listCmp (jsToLower a) (jsToLower c) = .lt := heq ▸ hbc
      simp [hac]
    · have heq2 := (listCmp_eq_iff _ _).mp hbc
      have hac : listCmp (jsToLower a) (jsToLower c) = .eq :=
        (listCmp_eq_iff _ _).mpr (heq.trans heq2)
      simp only [hac]
      simp only [hab] at h1
      simp only [hbc] at h2
      exact listCmp_le_trans a b c h1 h2
    · simp [hbc] at h2
  · simp [hab] at h1

theorem localeCmp_primary (a b : Str) (h : localeCmp a b ≠ .gt) :
    listCmp (jsToLower a) (jsToLower b) ≠ .gt := by
  unfold localeCmp at h
  rcases h2 : listCmp (jsToLower a) (jsToLower b) with _ | _ | _ <;> simp_all

/-! ## Entry-comparator and insertion-sort lemmas -/

theorem entryLe_dir_file (a b : FsEntry) (ha : a.isDir = true) (hb : b.isDir = false) :
    entryLe a b = true := by
  simp [entryLe, ha, hb]

theorem entryLe_file_dir (a b : FsEntry) (ha : a.isDir = false) (hb : b.isDir = true) :
    entryLe a b = false := by
  simp [entryLe, ha, hb]

theorem entryLe_eq_of_kind (a b : FsEntry) (h : a.isDir = b.isDir) :
    entryLe a b = true ↔ localeCmp a.name b.name ≠ .gt := by
  unfold entryLe
  cases ha : a.isDir <;> rw [ha] at h <;> simp only [← h, ha] <;>
    rcases hc : localeCmp a.name b.name with _ | _ | _ <;> simp [hc]

theorem entryLe_total (a b : FsEntry) : entryLe a b = true ∨ entryLe b a = true := by
  cases ha : a.isDir <;> cases hb : b.isDir
  · rcases hc : localeCmp a.name b.name with _ | _ | _
    · exact Or.inl ((entryLe_eq_of_kind a b (ha.trans hb.symm)).mpr (by simp [hc]))
    · exact Or.inl ((entryLe_eq_of_kind a b (ha.trans hb.symm)).mpr (by simp [hc]))
    · refine Or.inr ((entryLe_eq_of_kind b a (hb.trans ha.symm)).mpr ?_)
      rw [localeCmp_swap, hc]
      simp [Ordering.swap]
  · exact Or.inr (entryLe_dir_file b a hb ha)
  · exact Or.inl (entryLe_dir_file a b ha hb)
  · rcases hc : localeCmp a.name b.name with _ | _ | _
    · exact Or.inl ((entryLe_eq_of_kind a b (ha.trans hb.symm)).mpr (by simp [hc]))
    · exact Or.inl ((entryLe_eq_of_kind a b (ha.trans hb.symm)).mpr (by simp [hc]))
    · refine Or.inr ((entryLe_eq_of_kind b a (hb.trans ha.symm)).mpr ?_)
      rw [localeCmp_swap, hc]
      simp [Ordering.swap]

theorem entryLe_trans (a b c : FsEntry) (h1 : entryLe a b = true)
    (h2 : entryLe b c = true) : entryLe a c = true := by
  cases ha : a.isDir <;> cases hb : b.isDir <;> cases hc : c.isDir
  · exact (entryLe_eq_of_kind a c (ha.trans hc.symm)).mpr
      (localeCmp_le_trans a.name b.name c.name
        ((entryLe_eq_of_kind a b (ha.trans hb.symm)).mp h1)
        ((entryLe_eq_of_kind b c (hb.trans hc.symm)).mp h2))
  · rw [entryLe_file_dir b c hb hc] at h2
    exact absurd h2 (by simp)
  · rw [entryLe_file_dir a b ha hb] at h1
    exact absurd h1 (by simp)
  · rw [entryLe_file_dir a b ha hb] at h1
    exact absurd h1 (by simp)
  · exact entryLe_dir_file a c ha hc
  · rw [entryLe_file_dir b c hb hc] at h2
    exact absurd h2 (by simp)
  · exact entryLe_dir_file a c ha hc
  · exact (entryLe_eq_of_kind a c (ha.trans hc.symm)).mpr
      (localeCmp_le_trans a.name b.name c.name
        ((entryLe_eq_of_kind a b (ha.trans hb.symm)).mp h1)
        ((entryLe_eq_of_kind b c (hb.trans hc.symm)).mp h2))

theorem mem_insertSorted (le : α → α → Bool) (a x : α) (l : List α) :
    x ∈ insertSorted le a l ↔ x = a ∨ x ∈ l := by
  have h := (insertSorted_perm le a l).mem_iff (a := x)
  simpa using h

theorem pairwise_insertSorted (le : α → α → Bool)
    (total : ∀ a b, le a b = true ∨ le b a = true)
    (trans : ∀ a b c, le a b = true → le b c = true → le a c = true)
    (a : α) : ∀ (l : List α), l.Pairwise (fun x y => le x y = true) →
      (insertSorted le a l).Pairwise (fun x y => le x y = true) := by
  intro l
  induction l with
  | nil =>
    intro _
    simp [insertSorted]
  | cons b t ih =>
    intro hp
    rcases List.pairwise_cons.mp hp with ⟨hb, ht⟩
    unfold insertSorted
    by_cases h : le a b = true
    · simp only [h, if_pos]
      refine List.pairwise_cons.mpr ⟨?_, hp⟩
      intro x hx
      rcases List.mem_cons.mp hx with rfl | hx2
      · exact h
      · exact trans a b x h (hb x hx2)
    · simp only [h, if_neg, Bool.false_eq_true]
      refine List.pairwise_cons.mpr ⟨?_, ih ht⟩
      intro x hx
      rcases (mem_insertSorted le a x t).mp hx with hxa | hx2
      · subst hxa
        rcases total x b with h3 | h3
        · exact absurd h3 h
        · exact h3
      · exact hb x hx2

theorem pairwise_insertionSort (le : α → α → Bool)
    (total : ∀ a b, le a b = true ∨ le b a = true)
    (trans : ∀ a b c, le a b = true → le b c = true → le a c = true) :
    ∀ l : List α, (insertionSort le l).Pairwise (fun x y => le x y = true) := by
  intro l
  induction l with
  | nil => simp [insertionSort]
  | cons a t ih => exact pairwise_insertSorted le total trans a (insertionSort le t) ih

/-! ## Truncation-marker lemmas -/

theorem countTrunc_append (l1 l2 : List TreeLine) :
    countTrunc (l1 ++ l2) = countTrunc l1 + countTrunc l2 := by
  simp [countTrunc, List.filter_append]

theorem treeLineName_some_not_trunc (l : TreeLine) (n : Str)
    (h : treeLineName l = some n) : isTruncLine l = false := by
  cases l <;> simp_all [treeLineName, isTruncLine]

theorem tree_marker_invariant (ignoreFn : List Str → Bool)
    (maxItems fuel : Nat) (rootName : Str) (cs : List FsEntry) :
    countTrunc (generateDirectoryTree fuel ignoreFn maxItems rootName cs) ≤ 1 ∧
    (countTrunc (generateDirectoryTree fuel ignoreFn maxItems rootName cs) = 1 →
      ∃ pfx, (generateDirectoryTree fuel ignoreFn maxItems rootName cs).getLast? =
        some (.truncLine pfx)) ∧
    (generateDirectoryTree fuel ignoreFn maxItems rootName cs).length ≤ maxItems + 2 := by
  have main := traverseDir_inv ignoreFn maxItems
    (fun st => st.lines.length = st.itemCount + 1 ∧ st.itemCount ≤ maxItems + 1 ∧
      countTrunc st.lines = (if st.itemCount = maxItems + 1 then 1 else 0) ∧
      (st.itemCount = maxItems + 1 →
        ∃ pfx2, st.lines.getLast? = some (.truncLine pfx2)))
    (by
      intro st pfx hI heq
      obtain ⟨hlen, hle, hcnt, _⟩ := hI
      have h0 : countTrunc st.lines = 0 := by
        rw [hcnt]
        have : ¬ st.itemCount = maxItems + 1 := by omega
        simp [this]
      refine ⟨by simp [hlen], by show st.itemCount + 1 ≤ maxItems + 1; omega, ?_, ?_⟩
      · show countTrunc (st.lines ++ [TreeLine.truncLine pfx]) =
          if st.itemCount + 1 = maxItems + 1 then 1 else 0
        rw [countTrunc_append, h0]
        have h1 : countTrunc [TreeLine.truncLine pfx] = 1 := by
          simp [countTrunc, isTruncLine]
        rw [h1]
        simp [heq]
      · intro _
        exact ⟨pfx, by simp [List.getLast?_concat]⟩)
    (by
      intro st l hI hlt hname
      obtain ⟨hlen, hle, hcnt, _⟩ := hI
      obtain ⟨n, hn, _⟩ := hname
      have hnt : isTruncLine l = false := treeLineName_some_not_trunc l n hn
      refine ⟨by simp [hlen], by show st.itemCount + 1 ≤ maxItems + 1; omega, ?_,
        fun h => absurd h (by show ¬ st.itemCount + 1 = maxItems + 1; omega)⟩
      show countTrunc (st.lines ++ [l]) = if st.itemCount + 1 = maxItems + 1 then 1 else 0
      rw [countTrunc_append, hcnt]
      have h1 : ¬ st.itemCount = maxItems + 1 := by omega
      have h2 : ¬ st.itemCount + 1 = maxItems + 1 := by omega
      simp [h1, h2, countTrunc, hnt])
    fuel cs [] [] ⟨[.rootLine rootName], 0⟩
    ⟨by simp, by show (0 : Nat) ≤ maxItems + 1; omega,
     by
       show countTrunc [.rootLine rootName] = if (0 : Nat) = maxItems + 1 then 1 else 0
       have h : ¬ (0 : Nat) = maxItems + 1 := by omega
       simp [h, countTrunc, isTruncLine],
     fun h => absurd h (by show ¬ (0 : Nat) = maxItems + 1; omega)⟩
  obtain ⟨hlen, hle, hcnt, hlast⟩ := main
  simp only [generateDirectoryTree]
  refine ⟨?_, ?_, ?_⟩
  · rw [hcnt]
    split <;> omega
  · intro h1
    rw [hcnt] at h1
    by_cases h2 : (traverseDir ignoreFn maxItems fuel cs [] []
        ⟨[.rootLine rootName], 0⟩).itemCount = maxItems + 1
    · exact hlast h2
    · simp [h2] at h1
  · omega

/-! ## Claim C8: the tree renderer -/

/-- C8, amended: the renderer sorts each directory's surviving entries with
directories before files and case-insensitive name ordering (the sorted
listing is a permutation of the filtered entries, pairwise ordered by the
entry comparator; directories never follow files; among entries of the same
kind the lowercased names are non-decreasing); a recognized noise directory
is emitted as exactly one collapsed marker line and never traversed; and a
rendered tree holds at most one truncation marker, which — when present — is
its last line, the whole tree never exceeding `maxItems + 2` lines.  (The
marker is appended only when a directory traversal begins after the limit is
reached; a listing that overflows `maxItems` with no subsequent directory
traversal gets no marker, as the counterexample exhibits — "exactly one
marker once maxItems lines have been emitted" does not hold.) -/
theorem tree_renderer_properties :
    (∀ es : List FsEntry, (sortEntries es).Perm es) ∧
    (∀ es : List FsEntry, (sortEntries es).Pairwise (fun a b => entryLe a b = true)) ∧
    (∀ es : List FsEntry, (sortEntries es).Pairwise
      (fun a b => b.isDir = true → a.isDir = true)) ∧
    (∀ es : List FsEntry, (sortEntries es).Pairwise
      (fun a b => a.isDir = b.isDir →
        listCmp (jsToLower a.name) (jsToLower b.name) ≠ .gt)) ∧
    (∀ (maxItems : Nat) (recurse : List FsEntry → List Str → Str → TreeState → TreeState)
       (relPath : List Str) (pfx n : Str) (cs rest : List FsEntry) (st : TreeState),
      DEFAULT_IGNORED_FOLDERS.contains n = true → st.itemCount < maxItems →
      processEntries maxItems recurse relPath pfx (.dir n cs :: rest) st =
        processEntries maxItems recurse relPath pfx rest
          ⟨st.lines ++ [.noiseLine pfx rest.isEmpty n], st.itemCount + 1⟩) ∧
    (∀ (fuel maxItems : Nat) (ignoreFn : List Str → Bool) (rootName : Str)
       (cs : List FsEntry),
      countTrunc (generateDirectoryTree fuel ignoreFn maxItems rootName cs) ≤ 1 ∧
      (countTrunc (generateDirectoryTree fuel ignoreFn maxItems rootName cs) = 1 →
        ∃ pfx, (generateDirectoryTree fuel ignoreFn maxItems rootName cs).getLast? =
          some (.truncLine pfx)) ∧
      (generateDirectoryTree fuel ignoreFn maxItems rootName cs).length ≤ maxItems + 2) := by
  refine ⟨?_, ?_, ?_, ?_, ?_, ?_⟩
  · intro es
    exact insertionSort_perm entryLe es
  · intro es
    exact pairwise_insertionSort entryLe entryLe_total entryLe_trans es
  · intro es
    refine (pairwise_insertionSort entryLe entryLe_total entryLe_trans es).imp ?_
    intro a b hab hb
    by_cases ha : a.isDir = true
    · exact ha
    · rw [entryLe_file_dir a b (Bool.not_eq_true a.isDir ▸ ha) hb] at hab
      exact absurd hab (by simp)
  · intro es
    refine (pairwise_insertionSort entryLe entryLe_total entryLe_trans es).imp ?_
    intro a b hab hkind
    exact localeCmp_primary a.name b.name ((entryLe_eq_of_kind a b hkind).mp hab)
  · intro maxItems recurse relPath pfx n cs rest st hnoise hlt
    have hmem : n ∈ DEFAULT_IGNORED_FOLDERS := List.elem_iff.mp hnoise
    simp [processEntries, Nat.not_le.mpr hlt, hmem]
  · intro fuel maxItems ignoreFn rootName cs
    exact tree_marker_invariant ignoreFn maxItems fuel rootName cs

/-- C8 counterexample: a flat directory of four files rendered with
`maxItems = 3` emits three entry lines, drops the fourth, and appends no
truncation marker — the claim's "appends exactly one truncation marker once
maxItems lines have been emitted" fails. -/
theorem tree_overflow_without_marker :
    generateDirectoryTree 2 (fun _ => false) 3 (str "root") c8fs =
      [.rootLine (str "root"),
       .entryLine [] false (str "a") false,
       .entryLine [] false (str "b") false,
       .entryLine [] false (str "c") false] ∧
    countTrunc (generateDirectoryTree 2 (fun _ => false) 3 (str "root") c8fs) = 0 := by
  decide

/-- Witness for C8: the collapsed-marker step at a concrete state — a
`node_modules` directory emits one marker line and the walk moves on without
recursing into it. -/
theorem tree_renderer_properties_witness :
    processEntries 5 (traverseDir (fun _ => false) 5 1) [] []
        [.dir (str "node_modules") [], .file (str "a") none none]
        ⟨[.rootLine (str "r")], 0⟩ =
      processEntries 5 (traverseDir (fun _ => false) 5 1) [] []
        [(.file (str "a") none none : FsEntry)]
        ⟨[.rootLine (str "r"), .noiseLine [] false (str "node_modules")], 1⟩ :=
  tree_renderer_properties.2.2.2.2.1 5 (traverseDir (fun _ => false) 5 1) [] []
    (str "node_modules") [] [.file (str "a") none none] ⟨[.rootLine (str "r")], 0⟩
    (by decide) (by decide)

/-! ## Claim C1: workspace cleanup and the per-outcome flags -/

/-- C1 (code bug): the `finally` block's condition reads `options.success`,
a property of the caller's option object that no caller sets, instead of the
pipeline outcome.  With `cleanupOnSuccess = true` and `cleanupOnError =
false`, a run that reaches workspace creation and succeeds end to end leaves
the workspace in place (`cleanedUp = false`), although the cleanup-on-success
flag is set: cleanup is governed by `cleanupOnError` alone, for both
outcomes. -/
theorem cleanup_ignores_outcome :
    c1run.result.rtype = .SUCCESS ∧
    c1run.workspaceCreated = true ∧
    c1run.cleanedUp = false ∧
    c1opts.cleanupOnSuccess = true ∧
    cleanupCondition c1opts = c1opts.cleanupOnError := by
  decide

/-! ## Claim C4: cache lookup precedes validation -/

/-- C4, amended: the orchestrator consults the cache before validating.  A
cache hit under the normalized key terminates at SUCCESS with no fetch and no
workspace — even for a locator that fails validation; only when the cache is
disabled or misses does an invalid locator yield a ValidationError with no
fetch and no workspace creation. -/
theorem validation_after_cache :
    (∀ (genF : Str → Str) (fuel : Nat) (now : Int) (td ts url : Str)
       (o : RobustOptions) (store : CacheStore) (clone : CloneOutcome) (c : CachedResult),
      o.useCache = true → getCachedExtraction store now (stripGitSuffix url) = some c →
      (extractRepoContextRobust genF fuel now td ts url o store clone).result =
          .success c.content c.fileCount c.totalSize ∧
        (extractRepoContextRobust genF fuel now td ts url o store clone).fetchAttempted =
          false ∧
        (extractRepoContextRobust genF fuel now td ts url o store clone).workspaceCreated =
          false) ∧
    (∀ (genF : Str → Str) (fuel : Nat) (now : Int) (td ts url : Str)
       (o : RobustOptions) (store : CacheStore) (clone : CloneOutcome),
      (validateRepoUrl (some url)).valid = false →
      (o.useCache = false ∨ getCachedExtraction store now (stripGitSuffix url) = none) →
      (extractRepoContextRobust genF fuel now td ts url o store clone).result.rtype =
          .VALIDATION_ERROR ∧
        (extractRepoContextRobust genF fuel now td ts url o store clone).fetchAttempted =
          false ∧
        (extractRepoContextRobust genF fuel now td ts url o store clone).workspaceCreated =
          false) := by
  constructor
  · intro genF fuel now td ts url o store clone c huc hget
    simp [extractRepoContextRobust, huc, hget]
  · intro genF fuel now td ts url o store clone hvalid hmiss
    have hcached : (if o.useCache then getCachedExtraction store now (stripGitSuffix url)
        else none) = none := by
      rcases hmiss with h | h
      · simp [h]
      · simp [h]
    simp [extractRepoContextRobust, hcached, hvalid, RunResult.rtype]

/-- C4 counterexample: with caching enabled and the store holding an entry
under the (normalization-invariant) key `not-a-valid-url`, the orchestrator
returns SUCCESS from the cache for a locator that fails validation — not the
ValidationError the claim requires. -/
theorem cache_hit_bypasses_validation :
    (validateRepoUrl (some (str "not-a-valid-url"))).valid = false ∧
    ({} : RobustOptions).useCache = true ∧
    c4run.result = .success (str "CACHED") 2 3 ∧
    c4run.result.rtype ≠ .VALIDATION_ERROR ∧
    c4run.fetchAttempted = false := by
  decide

/-- Witness for C4: the cache-hit clause at the concrete store above, and the
validation clause at the same invalid locator with an empty store. -/
theorem validation_after_cache_witness :
    (extractRepoContextRobust (fun _ => str "g") 3 0 (str "/tmp/t") (str "T")
        (str "not-a-valid-url") {} c4store (.fail [] [])).result =
      .success (str "CACHED") 2 3 ∧
    (extractRepoContextRobust (fun _ => str "g") 3 0 (str "/tmp/t") (str "T")
        (str "not-a-valid-url") {} ⟨[], []⟩ (.fail [] [])).result.rtype =
      .VALIDATION_ERROR :=
  ⟨(validation_after_cache.1 (fun _ => str "g") 3 0 (str "/tmp/t") (str "T")
      (str "not-a-valid-url") {} c4store (.fail [] []) ⟨str "CACHED", 2, 3, 1⟩
      rfl (by decide)).1,
   (validation_after_cache.2 (fun _ => str "g") 3 0 (str "/tmp/t") (str "T")
      (str "not-a-valid-url") {} ⟨[], []⟩ (.fail [] []) (by decide)
      (Or.inr (by decide))).1⟩

/-! ## URL-shape lemmas for the normalizer/validator relation -/

theorem urlSegChar_not_ws (c : Char) (h : urlSegChar c = true) : isWs c = false := by
  cases hb : isWs c
  · rfl
  · exfalso
    have hb2 : c = ' ' ∨ c = '\t' ∨ c = '\n' ∨ c = '\r' ∨ c = '\x0c' ∨ c = '\x0b' := by
      simpa [isWs, or_assoc] using hb
    rcases hb2 with rfl | rfl | rfl | rfl | rfl | rfl <;> exact absurd h (by decide)

theorem dropWhile_eq_self_of_all (p : α → Bool) (l : List α)
    (h : ∀ c ∈ l, p c = false) : l.dropWhile p = l := by
  cases l with
  | nil => rfl
  | cons c cs => simp [List.dropWhile_cons, h c (List.mem_cons_self c cs)]

theorem jsTrim_eq_self (s : Str) (h : ∀ c ∈ s, isWs c = false) : jsTrim s = s := by
  unfold jsTrim
  rw [dropWhile_eq_self_of_all isWs s h,
    dropWhile_eq_self_of_all isWs s.reverse (fun c hc => h c (List.mem_reverse.mp hc)),
    List.reverse_reverse]

theorem takeWhile_append_stop (p : α → Bool) (l1 : List α) (c : α) (l2 : List α)
    (h1 : ∀ x ∈ l1, p x = true) (hc : p c = false) :
    (l1 ++ c :: l2).takeWhile p = l1 := by
  induction l1 with
  | nil => simp [List.takeWhile_cons, hc]
  | cons x xs ih =>
    rw [List.cons_append, List.takeWhile_cons, h1 x (List.mem_cons_self x xs)]
    rw [if_pos rfl, ih (fun y hy => h1 y (List.mem_cons_of_mem x hy))]

theorem isPrefixOf_append_self [BEq α] [LawfulBEq α] (l1 l2 : List α) :
    l1.isPrefixOf (l1 ++ l2) = true := by
  induction l1 with
  | nil => simp [List.isPrefixOf]
  | cons x xs ih => simp [List.isPrefixOf, ih]

theorem canParseUrl_of_scheme (tail : Str) :
    canParseUrl ('h' :: 't' :: 't' :: 'p' :: 's' :: ':' :: tail) = true := rfl

theorem twoSegGit_built (org repo : Str) (ho : org ≠ []) (hr : repo ≠ [])
    (hoa : org.all urlSegChar = true) (hra : repo.all urlSegChar = true) :
    twoSegGit (org ++ '/' :: (repo ++ str ".git")) = true := by
  have htw : (org ++ '/' :: (repo ++ str ".git")).takeWhile urlSegChar = org :=
    takeWhile_append_stop urlSegChar org '/' (repo ++ str ".git")
      (fun x hx => List.all_eq_true.mp hoa x hx) (by decide)
  have hdrop : List.drop org.length (org ++ '/' :: (repo ++ str ".git")) =
      '/' :: (repo ++ str ".git") := List.drop_left org _
  have h1 : org.isEmpty = false := by
    cases org with
    | nil => exact absurd rfl ho
    | cons a l => rfl
  have h2 : (repo ++ str ".git").isEmpty = false := by
    cases repo with
    | nil => exact absurd rfl hr
    | cons a l => rfl
  have h3 : (repo ++ str ".git").all urlSegChar = true := by
    rw [List.all_append, hra]
    decide
  unfold twoSegGit
  simp only [htw, hdrop]
  simp [h1, h2, h3]

theorem validateRepoUrl_accepts_built (org repo : Str)
    (ho : org ≠ []) (hr : repo ≠ []) (hoa : org.all urlSegChar = true)
    (hra : repo.all urlSegChar = true) :
    (validateRepoUrl (some (str "https://github.com/" ++ org ++ str "/" ++ repo ++
      str ".git"))).valid = true := by
  have hs : str "https://github.com/" ++ org ++ str "/" ++ repo ++ str ".git" =
      str "https://github.com/" ++ (org ++ '/' :: (repo ++ str ".git")) := by
    simp [str, List.append_assoc]
  rw [hs]
  have hnws : ∀ c ∈ str "https://github.com/" ++ (org ++ '/' :: (repo ++ str ".git")),
      isWs c = false := by
    intro c hc
    rcases List.mem_append.mp hc with h | h
    · exact (by decide : ∀ c ∈ str "https://github.com/", isWs c = false) c h
    · rcases List.mem_append.mp h with h2 | h2
      · exact urlSegChar_not_ws c (List.all_eq_true.mp hoa c h2)
      · rcases List.mem_cons.mp h2 with rfl | h3
        · decide
        · rcases List.mem_append.mp h3 with h4 | h4
          · exact urlSegChar_not_ws c (List.all_eq_true.mp hra c h4)
          · exact (by decide : ∀ c ∈ str ".git", isWs c = false) c h4
  have hne : (str "https://github.com/" ++ (org ++ '/' :: (repo ++ str ".git"))).isEmpty
      = false := rfl
  have hcan : canParseUrl (str "https://github.com/" ++ (org ++ '/' :: (repo ++ str ".git")))
      = true := canParseUrl_of_scheme _
  have hpat : githubHostPat (str "https://github.com/" ++ (org ++ '/' :: (repo ++ str ".git")))
      = true := by
    have hpre : jsStartsWith
        (str "https://github.com/" ++ (org ++ '/' :: (repo ++ str ".git")))
        (str "https://github.com/") = true := isPrefixOf_append_self _ _
    have hdrop : List.drop 19 (str "https://github.com/" ++ (org ++ '/' :: (repo ++ str ".git")))
        = org ++ '/' :: (repo ++ str ".git") := by
      have h0 := List.drop_left (str "https://github.com/")
        (org ++ '/' :: (repo ++ str ".git"))
      rwa [show (str "https://github.com/").length = 19 from rfl] at h0
    unfold githubHostPat
    rw [hpre, hdrop, twoSegGit_built org repo ho hr hoa hra]
    rfl
  simp only [validateRepoUrl, jsTrim_eq_self _ hnws, hne, Bool.false_eq_true, if_false,
    hcan, Bool.not_true, hpat, Bool.true_or, if_true]

theorem tryClonePattern_shape (m : Str → Option (Str × Str)) (t s : Str)
    (h : tryClonePattern m t = some s) :
    ∃ org repo, s = str "https://github.com/" ++ org ++ str "/" ++ repo ++ str ".git" ∧
      org ≠ [] ∧ repo ≠ [] ∧ org.all urlSegChar = true ∧ repo.all urlSegChar = true := by
  unfold tryClonePattern at h
  rcases hm : m t with _ | ⟨org, raw⟩
  · rw [hm] at h
    exact absurd h (by simp)
  · rw [hm] at h
    simp only [] at h
    by_cases hg : (!org.isEmpty && !(stripGitSuffix raw).isEmpty && org.all urlSegChar &&
        (stripGitSuffix raw).all urlSegChar) = true
    · rw [if_pos hg] at h
      have hs := Option.some.injEq .. ▸ h
      refine ⟨org, stripGitSuffix raw, hs.symm, ?_, ?_, ?_, ?_⟩
      · have h1 : org.isEmpty = false := by
          rcases Bool.and_eq_true_iff.mp hg with ⟨h2, _⟩
          rcases Bool.and_eq_true_iff.mp h2 with ⟨h3, _⟩
          rcases Bool.and_eq_true_iff.mp h3 with ⟨h4, _⟩
          simpa using h4
        cases horg : org with
        | nil => rw [horg] at h1; exact absurd h1 (by decide)
        | cons a l => simp
      · have h1 : (stripGitSuffix raw).isEmpty = false := by
          rcases Bool.and_eq_true_iff.mp hg with ⟨h2, _⟩
          rcases Bool.and_eq_true_iff.mp h2 with ⟨h3, _⟩
          rcases Bool.and_eq_true_iff.mp h3 with ⟨_, h4⟩
          simpa using h4
        cases hraw : stripGitSuffix raw with
        | nil => rw [hraw] at h1; exact absurd h1 (by decide)
        | cons a l => simp
      · rcases Bool.and_eq_true_iff.mp hg with ⟨h2, _⟩
        exact (Bool.and_eq_true_iff.mp h2).2
      · exact (Bool.and_eq_true_iff.mp hg).2
    · rw [if_neg hg] at h
      exact absurd h (by simp)

theorem getGitCloneUrl_shape (url : Option Str) (s : Str)
    (h : getGitCloneUrl url = some s) :
    ∃ org repo, s = str "https://github.com/" ++ org ++ str "/" ++ repo ++ str ".git" ∧
      org ≠ [] ∧ repo ≠ [] ∧ org.all urlSegChar = true ∧ repo.all urlSegChar = true := by
  rcases url with _ | u
  · exact absurd h (by simp [getGitCloneUrl])
  · by_cases he : u.isEmpty = true
    · rw [show getGitCloneUrl (some u) = none by simp [getGitCloneUrl, he]] at h
      exact absurd h (by simp)
    · simp only [getGitCloneUrl, if_neg he] at h
      rcases h1 : tryClonePattern gitUrlPattern1 (jsTrim u) with _ | r1
      · simp only [h1] at h
        rcases h2 : tryClonePattern gitUrlPattern2 (jsTrim u) with _ | r2
        · simp only [h2] at h
          rcases h3 : tryClonePattern gitUrlPattern3 (jsTrim u) with _ | r3
          · simp only [h3] at h
            exact tryClonePattern_shape gitUrlPattern4 (jsTrim u) s h
          · simp only [h3, Option.some.injEq] at h
            exact h ▸ tryClonePattern_shape gitUrlPattern3 (jsTrim u) r3 h3
        · simp only [h2, Option.some.injEq] at h
          exact h ▸ tryClonePattern_shape gitUrlPattern2 (jsTrim u) r2 h2
      · simp only [h1, Option.some.injEq] at h
        exact h ▸ tryClonePattern_shape gitUrlPattern1 (jsTrim u) r1 h1

/-! ## Claim C10: normalizer output always passes the validator -/

/-- C10: every non-null result of `getGitCloneUrl` has the shape
`https://github.com/<org>/<repo>.git` with non-empty org and repo drawn from
the word/dash/dot character class, and `validateRepoUrl` accepts every such
result — a normalized locator can never fail downstream syntactic
validation. -/
theorem getGitCloneUrl_validates :
    ∀ (url : Option Str) (s : Str), getGitCloneUrl url = some s →
      (∃ org repo,
        s = str "https://github.com/" ++ org ++ str "/" ++ repo ++ str ".git" ∧
        org ≠ [] ∧ repo ≠ [] ∧ org.all urlSegChar = true ∧
        repo.all urlSegChar = true) ∧
      (validateRepoUrl (some s)).valid = true := by
  intro url s h
  obtain ⟨org, repo, rfl, ho, hr, hoa, hra⟩ := getGitCloneUrl_shape url s h
  exact ⟨⟨org, repo, rfl, ho, hr, hoa, hra⟩,
    validateRepoUrl_accepts_built org repo ho hr hoa hra⟩

/-- Witness for C10: the shorthand locator `ncvgl/gitmermaid` normalizes to
`https://github.com/ncvgl/gitmermaid.git`, which the validator accepts. -/
theorem getGitCloneUrl_validates_witness :
    getGitCloneUrl (some (str "ncvgl/gitmermaid")) =
      some (str "https://github.com/ncvgl/gitmermaid.git") ∧
    (validateRepoUrl (some (str "https://github.com/ncvgl/gitmermaid.git"))).valid = true :=
  ⟨by decide,
   by
     have h := (getGitCloneUrl_validates (some (str "ncvgl/gitmermaid"))
       (str "https://github.com/ncvgl/gitmermaid.git") (by decide)).2
     exact h⟩

end GitMermaid
